import Mathlib

/-!
# Verification of the `skeletonkey` configuration resolver

A shallow embedding, in Lean 4, of the configuration-composition engine in
`skeletonkey/config.py`, together with theorems settling the specification
claims about it.

Modelling conventions:

* YAML values are modelled by the mutual inductive family `YVal` / `YList` /
  `YDict`. Python `dict`s are association lists (`YDict`) with insertion-order
  semantics: assignment to an existing key replaces the value in place,
  assignment to a fresh key appends at the end, exactly like CPython dicts.
* The file system is a function `FS : String → Option YVal` mapping a full
  path to the parsed YAML content of the file stored there (`Option.none`
  means no file exists at that path).  `yaml.safe_load` of an empty file
  yields Python `None`, modelled as `YVal.null`.
* Python exceptions are modelled with `Except String`; the error strings are
  informal descriptions of the exception raised.
* `os.path` helpers (`join`, `splitext`) are modelled faithfully for POSIX
  paths at the character-list level.
-/

set_option autoImplicit false

namespace Skeletonkey

mutual

/-- A parsed YAML value (the result of `yaml.safe_load`). -/
inductive YVal : Type where
  | str : String → YVal
  | int : Int → YVal
  | bool : Bool → YVal
  | null : YVal
  | list : YList → YVal
  | dict : YDict → YVal

/-- A YAML sequence. -/
inductive YList : Type where
  | nil : YList
  | cons : YVal → YList → YList

/-- A YAML mapping, i.e. a Python `dict` in insertion order. -/
inductive YDict : Type where
  | nil : YDict
  | cons : String → YVal → YDict → YDict

end

namespace YDict

/-- Build a `YDict` from a plain list of entries (for writing examples). -/
def ofList : List (String × YVal) → YDict
  | [] => .nil
  | (k, v) :: rest => .cons k v (ofList rest)

/-- Python `d[k]` / `d.get(k)`: value of the first entry with key `k`. -/
def dlookup : YDict → String → Option YVal
  | .nil, _ => none
  | .cons k' v rest, k => if k' = k then some v else dlookup rest k

/-- Python `k in d`. -/
def dmem (d : YDict) (k : String) : Bool := (d.dlookup k).isSome

/-- Python `d[k] = v`: replace in place if the key exists, else append. -/
def dinsert : YDict → String → YVal → YDict
  | .nil, k, v => .cons k v .nil
  | .cons k' v' rest, k, v =>
    if k' = k then .cons k' v rest else .cons k' v' (dinsert rest k v)

/-- Python `del d[k]` (for a key that is present): drop the first entry
with key `k`; a missing key is left as a no-op here (the sources only
delete keys they have just tested for). -/
def ddelete : YDict → String → YDict
  | .nil, _ => .nil
  | .cons k' v rest, k => if k' = k then rest else .cons k' v (ddelete rest k)

/-- Python `d.update(other)` for a dict argument: assign every entry of
`other`, in order, into `d`. -/
def dupdate : YDict → YDict → YDict
  | d, .nil => d
  | d, .cons k v rest => dupdate (dinsert d k v) rest

/-- The keys of a dict, in order. -/
def dkeys : YDict → List String
  | .nil => []
  | .cons k _ rest => k :: dkeys rest

/-- Python `len(d) == 0` / falsiness of a dict. -/
def disNil : YDict → Bool
  | .nil => true
  | .cons _ _ _ => false

/-- Concatenation of two dicts with disjoint keys (specification helper). -/
def dappend : YDict → YDict → YDict
  | .nil, d₂ => d₂
  | .cons k v rest, d₂ => .cons k v (dappend rest d₂)

end YDict

namespace YList

/-- Build a `YList` from a plain list (for writing examples). -/
def ofList : List YVal → YList
  | [] => .nil
  | v :: rest => .cons v (ofList rest)

/-- View a `YList` as a plain Lean list. -/
def toList : YList → List YVal
  | .nil => []
  | .cons v rest => v :: toList rest

end YList

/-- Python truthiness of a YAML value (`if config:`). -/
def ytruthy : YVal → Bool
  | .str s => !s.data.isEmpty
  | .int n => n != 0
  | .bool b => b
  | .null => false
  | .list .nil => false
  | .list (.cons _ _) => true
  | .dict d => !d.disNil

/- ### String and path helpers -/

/-- Python `str.split(".")` on the character level: split at every `'.'`,
keeping empty groups (`"".split(".") == [""]`). -/
def splitDotChars : List Char → List (List Char)
  | [] => [[]]
  | c :: cs =>
    if c = '.' then [] :: splitDotChars cs
    else
      match splitDotChars cs with
      | [] => [[c]]
      | g :: gs => (c :: g) :: gs

/-- Python `key.split(".")`. -/
def splitOnDot (s : String) : List String :=
  (splitDotChars s.data).map String.mk

/-- Joining key segments with `"."` (inverse of `splitOnDot` on dot-free
segments); used to express the spec's "dotted key". -/
def joinDots : List String → String
  | [] => ""
  | [s] => s
  | s :: rest => s ++ "." ++ joinDots rest

/-- `os.path.join(a, b)` for POSIX paths and two arguments. -/
def osPathJoin (a b : String) : String :=
  if (match b.data with | '/' :: _ => true | _ => false) then b
  else if a.data.isEmpty || (a.data.getLast? == some '/') then a ++ b
  else a ++ "/" ++ b

/-- The root part of `os.path.splitext(p)` (POSIX): `p` with its extension
removed, where the extension starts at the last `'.'` of the basename
provided some earlier character of the basename is not a `'.'`. -/
def splitextRoot (p : String) : String :=
  let r := p.data.reverse
  let base_r := r.takeWhile (fun c => c ≠ '/')
  let ext_r := base_r.takeWhile (fun c => c ≠ '.')
  if ext_r.length = base_r.length then p
  else
    let stem_r := base_r.drop (ext_r.length + 1)
    if stem_r.any (fun c => c ≠ '.') then
      String.mk (p.data.take (p.data.length - ext_r.length - 1))
    else p

/-- `add_yaml_extension`: append `".yaml"` unless the path already ends in
`".yaml"` or `".yml"`. -/
def add_yaml_extension (path : String) : String :=
  if !(".yaml".data.isSuffixOf path.data) && !(".yml".data.isSuffixOf path.data)
  then path ++ ".yaml" else path

/- ### The file system and the document loader -/

/-- The file system: full path ↦ parsed YAML content of the file there
(`none`: no such file).  `os.path.isfile p` is `(fs p).isSome`. -/
def FS : Type := String → Option YVal

/-- `find_yaml_path`: strip the extension, then return the `.yml` variant
if a file exists there, else the `.yaml` variant if a file exists there,
else raise `FileNotFoundError`. -/
def find_yaml_path (fs : FS) (file_path : String) : Except String String :=
  let base_path := splitextRoot file_path
  let yml_path := base_path ++ ".yml"
  let yaml_path := base_path ++ ".yaml"
  if (fs yml_path).isSome then .ok yml_path
  else if (fs yaml_path).isSome then .ok yaml_path
  else .error ("FileNotFoundError: No YAML file found with either extension for path: " ++ base_path)

/-- `open_yaml`: locate the file via `find_yaml_path` and parse it.
(`os.path.expanduser` is the identity on the tilde-free paths modelled
here.) -/
def open_yaml (fs : FS) (path : String) : Except String YVal := do
  let p ← find_yaml_path fs path
  match fs p with
  | some v => .ok v
  | none => .error "unreachable: find_yaml_path returned a missing file"

/- ### The path flattener `dict_to_path` -/

mutual

/-- `dict_to_path`: flatten a nested mapping into a list of slash-joined
path strings. `new_key = os.path.join(parent_key, key) if parent_key else
key`; a dict value recurses, a list value is iterated, any other value is
`os.path.join`ed — which raises `TypeError` unless it is a string. -/
def dict_to_path : YDict → String → Except String (List String)
  | .nil, _ => .ok []
  | .cons key value rest, parent_key =>
    let new_key := if parent_key.data.isEmpty then key else osPathJoin parent_key key
    do
      let a ← dtpValue value new_key
      let b ← dict_to_path rest parent_key
      .ok (a ++ b)

/-- One dictionary value inside `dict_to_path`. -/
def dtpValue : YVal → String → Except String (List String)
  | .dict d, new_key => dict_to_path d new_key
  | .list xs, new_key => dtpList xs new_key
  | .str s, new_key => .ok [osPathJoin new_key s]
  | _, _ => .error "TypeError: os.path.join on a non-string value"

/-- A list value inside `dict_to_path`: dictionaries recurse, any other
element is `os.path.join`ed (so only strings are accepted). -/
def dtpList : YList → String → Except String (List String)
  | .nil, _ => .ok []
  | .cons x xs, new_key => do
      let a ← dtpElem x new_key
      let b ← dtpList xs new_key
      .ok (a ++ b)

/-- One sequence element inside `dict_to_path`. -/
def dtpElem : YVal → String → Except String (List String)
  | .dict d, new_key => dict_to_path d new_key
  | .str s, new_key => .ok [osPathJoin new_key s]
  | _, _ => .error "TypeError: os.path.join on a non-string element"

end

mutual

/-- `dict_to_path` succeeds exactly on these mappings: every non-mapping,
non-sequence value is a string, and every sequence element is a string or
a (recursively good) mapping. -/
def goodDict : YDict → Bool
  | .nil => true
  | .cons _ v rest => goodValue v && goodDict rest

/-- Admissible dictionary value for `dict_to_path`. -/
def goodValue : YVal → Bool
  | .dict d => goodDict d
  | .list xs => goodListB xs
  | .str _ => true
  | _ => false

/-- Admissible sequence for `dict_to_path`. -/
def goodListB : YList → Bool
  | .nil => true
  | .cons x xs => goodElem x && goodListB xs

/-- Admissible sequence element for `dict_to_path`. -/
def goodElem : YVal → Bool
  | .dict d => goodDict d
  | .str _ => true
  | _ => false

end

mutual

/-- The mapping contains a non-string scalar leaf (an `int`, `bool` or
`null` in dictionary-value or sequence-element position). -/
def hasBadScalarDict : YDict → Bool
  | .nil => false
  | .cons _ v rest => hasBadScalarValue v || hasBadScalarDict rest

/-- Non-string scalar leaf inside a dictionary value. -/
def hasBadScalarValue : YVal → Bool
  | .dict d => hasBadScalarDict d
  | .list xs => hasBadScalarList xs
  | .str _ => false
  | _ => true

/-- Non-string scalar leaf inside a sequence. -/
def hasBadScalarList : YList → Bool
  | .nil => false
  | .cons x xs => hasBadScalarElem x || hasBadScalarList xs

/-- Non-string scalar leaf in sequence-element position. -/
def hasBadScalarElem : YVal → Bool
  | .dict d => hasBadScalarDict d
  | .str _ => false
  | .list _ => false
  | _ => true

end

/- ### Loading default fragments -/

/-- `get_default_yaml_paths_from_dict`: flatten the defaults dict into
paths and suffix each with a YAML extension when missing. -/
def get_default_yaml_paths_from_dict (default_yaml : YDict) : Except String (List String) := do
  let paths ← dict_to_path default_yaml ""
  .ok (paths.map add_yaml_extension)

/-- The dict comprehension in `get_default_args_from_dict`:
`{key: value for config_dict in default_configs if config_dict for key,
value in config_dict.items()}` — skip falsy fragments, call `.items()` on
the rest (raising `AttributeError` on non-dicts), and let later
assignments overwrite earlier ones. -/
def mergeFragmentStep (acc : YDict) (c : YVal) : Except String YDict :=
  if ytruthy c then
    match c with
    | .dict d => .ok (acc.dupdate d)
    | _ => .error "AttributeError: .items() on a non-dict fragment"
  else .ok acc

/-- The dict comprehension, as a fold of `mergeFragmentStep`. -/
def mergeFragments (default_configs : List YVal) : Except String YDict :=
  default_configs.foldlM mergeFragmentStep .nil

/-- `get_default_args_from_dict`: turn the defaults dict into file paths,
load each file, and merge the loaded fragments by dict comprehension. -/
def get_default_args_from_dict (fs : FS) (config_path : String) (default_yaml : YDict) :
    Except String YDict := do
  let yaml_paths ← get_default_yaml_paths_from_dict default_yaml
  let default_configs ← yaml_paths.mapM (fun p => open_yaml fs (osPathJoin config_path p))
  mergeFragments default_configs

/-- `get_default_args_from_path`: suffix the relative path, join it to the
config directory and load that file. -/
def get_default_args_from_path (fs : FS) (config_path default_yaml : String) :
    Except String YVal :=
  open_yaml fs (osPathJoin config_path (add_yaml_extension default_yaml))

/- ### `load_yaml_config` -/

/-- The `if default_config: config.update((key, value) for key, value in
default_config.items() if key not in config)` step.  The generator is
consumed lazily, so every membership test sees the assignments made
earlier in the same update. -/
def updateIfAbsent : YDict → YDict → YDict
  | config, .nil => config
  | config, .cons k v rest =>
    if config.dmem k then updateIfAbsent config rest
    else updateIfAbsent (config.dinsert k v) rest

/-- Merge one resolved default fragment value into the config: falsy
fragments are skipped, dict fragments are merged keep-existing-keys, any
other truthy value raises when its `.items()` is taken. -/
def mergeDefaultIntoConfig (config : YDict) (default_config : YVal) : Except String YDict :=
  if ytruthy default_config then
    match default_config with
    | .dict d => .ok (updateIfAbsent config d)
    | _ => .error "AttributeError: .items() on a non-dict default_config"
  else .ok config

/-- Python iteration over the value under the defaults keyword when it is
not a dict: lists iterate their items, strings iterate their characters
(each a one-character string), anything else raises `TypeError`. -/
def pyIter : YVal → Except String (List YVal)
  | .list xs => .ok xs.toList
  | .str s => .ok (s.data.map (fun c => YVal.str (String.mk [c])))
  | _ => .error "TypeError: object is not iterable"

/-- The sequence-form defaults loop for an item that is neither a dict
nor a string: `default_config` is left unassigned, so Python raises
`NameError` on the first iteration and re-merges the stale value of the
previous iteration afterwards.  The state carries the config together
with the `default_config` variable. -/
def processStaleDefault : YDict × Option YVal → Except String (YDict × Option YVal)
  | (_, none) => .error "NameError: default_config referenced before assignment"
  | (config, some dcv) => do
      let config ← mergeDefaultIntoConfig config dcv
      .ok (config, some dcv)

/-- One iteration of the sequence-form defaults loop in
`load_yaml_config` (see `processStaleDefault` for the neither-dict-nor-
string arm). -/
def processDefaultItem (fs : FS) (config_path : String)
    (st : YDict × Option YVal) (item : YVal) : Except String (YDict × Option YVal) :=
  match item with
  | .dict dy => do
      let dc ← get_default_args_from_dict fs config_path dy
      let config ← mergeDefaultIntoConfig st.1 (.dict dc)
      .ok (config, some (.dict dc))
  | .str s => do
      let dcv ← get_default_args_from_path fs config_path s
      let config ← mergeDefaultIntoConfig st.1 dcv
      .ok (config, some dcv)
  | _ => processStaleDefault st

/-- The defaults block of `load_yaml_config`: when the defaults keyword is
present, resolve the declaration (dict form or iterated form), merge the
fragments into the config with existing keys winning, and delete the
keyword. -/
def resolveDefaults (fs : FS) (config_path : String) (config : YDict)
    (default_keyword : String) : Except String YDict :=
  match config.dlookup default_keyword with
  | none => .ok config
  | some default_path_dict =>
    match default_path_dict with
    | .dict dpd => do
        let default_config ← get_default_args_from_dict fs config_path dpd
        let config ← mergeDefaultIntoConfig config (.dict default_config)
        .ok (config.ddelete default_keyword)
    | other => do
        let items ← pyIter other
        let st ← items.foldlM (processDefaultItem fs config_path) (config, none)
        .ok (st.1.ddelete default_keyword)

/-- The inner loop of `unpack_collection` over a sub-entry mapping:
`config[collection_key] = {}` followed by one
`config[collection_key].update({subconfig_key: subconfig})` per name.
Each referenced path must be a string (`add_yaml_extension` calls
`.endswith` on it). -/
def buildSubEntries (fs : FS) (config_path : String) : YDict → Except String YDict
  | .nil => .ok .nil
  | .cons subconfig_key v rest => do
      match v with
      | .str p => do
          let subconfig ← get_default_args_from_path fs config_path p
          let tail ← buildSubEntries fs config_path rest
          .ok (YDict.cons subconfig_key subconfig tail)
      | _ => .error "AttributeError: .endswith on a non-string path"

/-- The `for collection_key in collections_dict.keys()` loop of
`unpack_collection`.  On a name collision the Python code executes
`return ValueError(...)`: the error object is *returned*, not raised, so
the loop stops, the collection keyword is *not* deleted, and the caller
(`load_yaml_config`) discards the returned value — modelled by returning
the config mutated so far. -/
def unpackLoop (fs : FS) (config_path collection_keyword : String) :
    YDict → YDict → Except String YDict
  | .nil, config => .ok (config.ddelete collection_keyword)
  | .cons collection_key entry rest, config =>
    if config.dmem collection_key then
      .ok config
    else
      match entry with
      | .dict ce => do
          let sub ← buildSubEntries fs config_path ce
          unpackLoop fs config_path collection_keyword rest
            (config.dinsert collection_key (.dict sub))
      | .str p => do
          let subconfig ← get_default_args_from_path fs config_path p
          unpackLoop fs config_path collection_keyword rest
            (config.dinsert collection_key subconfig)
      | _ => .error "AttributeError: .endswith on a non-string path"

/-- `unpack_collection`: expand every keyring entry into a sibling key and
delete the keyword afterwards (see `unpackLoop` for the collision path). -/
def unpack_collection (fs : FS) (config : YDict) (config_path collection_keyword : String) :
    Except String YDict :=
  match config.dlookup collection_keyword with
  | some (.dict collections_dict) =>
      unpackLoop fs config_path collection_keyword collections_dict config
  | some _ => .error "AttributeError: .keys() on a non-dict collection"
  | none => .error "KeyError: collection keyword absent"

/-- Python `default_keyword in config` and the subsequent dict operations
require the root document to be a mapping; a non-mapping root raises (or
falls through unprocessed) and is outside every claim, modelled as an
error. -/
def asDict : YVal → Except String YDict
  | .dict d => .ok d
  | _ => .error "TypeError: root document is not a mapping"

/-- `load_yaml_config`: load the root document, resolve the defaults
declaration, then expand the keyring when its keyword is present. -/
def load_yaml_config (fs : FS) (config_path config_name : String)
    (default_keyword collection_keyword : String) : Except String YDict := do
  let cv ← open_yaml fs (osPathJoin config_path config_name)
  let config ← asDict cv
  let config ← resolveDefaults fs config_path config default_keyword
  if config.dmem collection_keyword then
    unpack_collection fs config config_path collection_keyword
  else .ok config

/- ### CLI flag synthesis (`add_args_from_dict`) -/

/-- One synthesized `argparse.add_argument` call: the flag string, its
default value, and whether it is a `store_true` flag. -/
structure ArgSpec where
  flag : String
  default : YVal
  storeTrue : Bool

/-- The process environment: variable name ↦ value (`os.environ`). -/
def Env : Type := String → Option String

/-- `add_args_from_dict`: walk the config dict; nested dicts recurse with
`prefix + key + "."`; a `"$"`-prefixed scalar key takes its default from
the environment variable of the sigil-stripped name when set; a `"?"`
prefix makes a `store_true` flag; otherwise a plain typed flag. -/
def add_args_from_dict (env : Env) : YDict → String → List ArgSpec
  | .nil, _ => []
  | .cons key value rest, prefix_ =>
    (match value with
     | .dict d => add_args_from_dict env d (prefix_ ++ key ++ ".")
     | _ =>
       match key.data with
       | '$' :: tl =>
           let name := String.mk tl
           let value := match env name with
                        | some s => YVal.str s
                        | none => value
           [⟨"--" ++ prefix_ ++ name, value, false⟩]
       | '?' :: tl =>
           [⟨"--" ++ prefix_ ++ String.mk tl, value, true⟩]
       | _ =>
           [⟨"--" ++ prefix_ ++ key, value, false⟩])
    ++ add_args_from_dict env rest prefix_

/- ### `Config.__delitem__` -/

/-- `Config.__delitem__` executes `self.__delattr__()` — with no argument
at all — so Python raises `TypeError` before touching any attribute,
whatever the config contents and key are. -/
def config_delitem (_config : YDict) (_key : String) : Except String YDict :=
  .error "TypeError: __delattr__ expected 1 argument, got 0"

/- ### `config_to_nested_config` -/

/-- One `for sub_key in keys[:-1]` walk of `config_to_nested_config`:
create missing intermediate dicts, descend, and assign the last segment.
Descending into an existing non-dict value raises. -/
def insertPath : YDict → List String → YVal → Except String YDict
  | d, [], _ => .ok d
  | d, [k], v => .ok (d.dinsert k v)
  | d, k :: r :: rs, v =>
    match d.dlookup k with
    | none => do
        let sub ← insertPath .nil (r :: rs) v
        .ok (d.dinsert k (.dict sub))
    | some (.dict sub) => do
        let sub ← insertPath sub (r :: rs) v
        .ok (d.dinsert k (.dict sub))
    | some _ => .error "TypeError: intermediate value is not a dict"

/-- The loop of `config_to_nested_config` over the flat entries. -/
def ctncGo : YDict → YDict → Except String YDict
  | .nil, nested => .ok nested
  | .cons key value rest, nested => do
      let nested ← insertPath nested (splitOnDot key) value
      ctncGo rest nested

/-- `config_to_nested_config`: split every flat key of the `Config` (its
`__dict__`, modelled as a `YDict`) on `"."` and build the nested dict by
walking/creating intermediates and assigning the last segment. -/
def config_to_nested_config (config : YDict) : Except String YDict :=
  ctncGo config .nil

mutual

/-- Modelled from the spec: the dotted-key flattening of a nested mapping
(the CLI layer's flat namespace, whose producer `namespace_to_config` /
argparse bridging is not part of `src/`).  Each scalar leaf of the nested
mapping yields one pair of its dot-joined key path and its value, in
insertion order; nested mappings recurse. -/
def flattenPaths : YDict → List (List String × YVal)
  | .nil => []
  | .cons k v rest => flattenEntry k v ++ flattenPaths rest

/-- One entry of `flattenPaths`: a dict value contributes its own
flattening with the key prepended, any other value is a leaf. -/
def flattenEntry (k : String) : YVal → List (List String × YVal)
  | .dict sub => (flattenPaths sub).map (fun p => (k :: p.1, p.2))
  | v => [([k], v)]

end

/-- Modelled from the spec: the dotted-key flat mapping of a nested
mapping — `flattenPaths` with every key path joined by `"."`. -/
def flatten (d : YDict) : YDict :=
  YDict.ofList ((flattenPaths d).map (fun p => (joinDots p.1, p.2)))

mutual

/-- Well-formed nested mapping for the round-trip law: keys are unique at
each level and contain no `'.'`, and every nested sub-mapping is
non-empty (and recursively well-formed). -/
def wfDict : YDict → Bool
  | .nil => true
  | .cons k v rest =>
    !((YDict.dkeys rest).contains k) && k.data.all (fun c => c != '.') &&
      wfValue v && wfDict rest

/-- Well-formed value position for the round-trip law. -/
def wfValue : YVal → Bool
  | .dict sub => !sub.disNil && wfDict sub
  | _ => true

end

/- ### Specification helpers for the merge-order laws -/

/-- First-defined choice between two optional values. -/
def ofirst (a b : Option YVal) : Option YVal :=
  match a with
  | some v => some v
  | none => b

/-- The value of `k` in the *earliest* fragment (in declaration order)
that binds it. -/
def firstIn : List YDict → String → Option YVal
  | [], _ => none
  | d :: rest, k => ofirst (d.dlookup k) (firstIn rest k)

/-- The value of `k` in the *latest* fragment (in declaration order) that
binds it. -/
def lastIn : List YDict → String → Option YVal
  | [], _ => none
  | d :: rest, k => ofirst (lastIn rest k) (d.dlookup k)

/-- Keys of a dict are pairwise distinct (every YAML mapping satisfies
this). -/
def distinctKeys : YDict → Bool
  | .nil => true
  | .cons k _ rest => !((YDict.dkeys rest).contains k) && distinctKeys rest

/-- Iterated `updateIfAbsent` over a list of fragments, in order — the
accumulated config of the sequence-form defaults loop. -/
def chainUpdate : YDict → List YDict → YDict
  | config, [] => config
  | config, d :: rest => chainUpdate (updateIfAbsent config d) rest

/-- Iterated dict-comprehension accumulation over a list of fragments —
the result of `mergeFragments` on dict fragments. -/
def chainDupdate : YDict → List YDict → YDict
  | acc, [] => acc
  | acc, d :: rest => chainDupdate (acc.dupdate d) rest

/- ### Induction principles for the mutual value family -/

/-- Tail induction on dicts (the nested values are untouched). -/
@[induction_eliminator]
theorem ydictRecTail {motive : YDict → Prop} (nil : motive .nil)
    (cons : ∀ (k : String) (v : YVal) (rest : YDict),
      motive rest → motive (.cons k v rest)) : ∀ d, motive d
  | .nil => nil
  | .cons k v rest => cons k v rest (ydictRecTail nil cons rest)

/-- Tail induction on YAML sequences. -/
@[induction_eliminator]
theorem ylistRecTail {motive : YList → Prop} (nil : motive .nil)
    (cons : ∀ (v : YVal) (rest : YList),
      motive rest → motive (.cons v rest)) : ∀ l, motive l
  | .nil => nil
  | .cons v rest => cons v rest (ylistRecTail nil cons rest)

/- ### Lemmas: association-list operations -/

theorem ofirst_assoc (a b c : Option YVal) :
    ofirst (ofirst a b) c = ofirst a (ofirst b c) := by
  cases a <;> cases b <;> rfl

@[simp] theorem ofirst_none (b : Option YVal) : ofirst none b = b := rfl

@[simp] theorem ofirst_some (v : YVal) (b : Option YVal) :
    ofirst (some v) b = some v := rfl

@[simp] theorem ofirst_none_right (a : Option YVal) : ofirst a none = a := by
  cases a <;> rfl

theorem dlookup_dinsert (d : YDict) (k k' : String) (v : YVal) :
    (d.dinsert k v).dlookup k' = if k = k' then some v else d.dlookup k' := by
  induction d with
  | nil => simp [YDict.dinsert, YDict.dlookup]
  | cons k₀ v₀ rest ih =>
      by_cases h₀ : k₀ = k
      · subst h₀
        by_cases h : k₀ = k' <;> simp [YDict.dinsert, YDict.dlookup, h]
      · by_cases h : k₀ = k'
        · subst h
          have : ¬ k = k₀ := fun hh => h₀ hh.symm
          simp [YDict.dinsert, YDict.dlookup, h₀, this]
        · simp [YDict.dinsert, YDict.dlookup, h₀, h, ih]

theorem dlookup_ddelete (d : YDict) (k k' : String) (h : k ≠ k') :
    (d.ddelete k).dlookup k' = d.dlookup k' := by
  induction d with
  | nil => rfl
  | cons k₀ v₀ rest ih =>
      by_cases h₀ : k₀ = k
      · subst h₀
        simp [YDict.ddelete, YDict.dlookup, h]
      · simp [YDict.ddelete, YDict.dlookup, h₀, ih]

theorem dmem_eq_isSome (d : YDict) (k : String) :
    d.dmem k = (d.dlookup k).isSome := rfl

theorem updateIfAbsent_lookup (items config : YDict) (k : String) :
    (updateIfAbsent config items).dlookup k
      = ofirst (config.dlookup k) (items.dlookup k) := by
  induction items generalizing config with
  | nil => simp [updateIfAbsent, YDict.dlookup]
  | cons k₀ v₀ rest ih =>
      rw [updateIfAbsent]
      by_cases hmem : config.dmem k₀ = true
      · rw [if_pos hmem, ih]
        rw [dmem_eq_isSome] at hmem
        by_cases hk : k₀ = k
        · subst hk
          rcases hke : config.dlookup k₀ with _ | v
          · rw [hke] at hmem; simp at hmem
          · simp [YDict.dlookup]
        · simp [YDict.dlookup, hk]
      · rw [if_neg hmem, ih, dlookup_dinsert]
        rw [dmem_eq_isSome] at hmem
        have hnone : config.dlookup k₀ = none := by
          rcases hke : config.dlookup k₀ with _ | v
          · rfl
          · rw [hke] at hmem; simp at hmem
        by_cases hk : k₀ = k
        · subst hk
          simp [hnone, YDict.dlookup]
        · simp [hk, YDict.dlookup]

theorem dlookup_eq_none_of_not_contains (d : YDict) (k : String)
    (h : (YDict.dkeys d).contains k = false) : d.dlookup k = none := by
  induction d with
  | nil => rfl
  | cons k₀ v₀ rest ih =>
      simp only [YDict.dkeys, List.contains_cons, Bool.or_eq_false_iff] at h
      have hne : ¬ k₀ = k := by
        intro hh
        subst hh
        simp at h
      simp [YDict.dlookup, hne, ih h.2]

theorem dupdate_lookup (items config : YDict) (k : String)
    (hd : distinctKeys items = true) :
    (config.dupdate items).dlookup k
      = ofirst (items.dlookup k) (config.dlookup k) := by
  induction items generalizing config with
  | nil => simp [YDict.dupdate, YDict.dlookup]
  | cons k₀ v₀ rest ih =>
      rw [distinctKeys] at hd
      simp only [Bool.and_eq_true, Bool.not_eq_true'] at hd
      rw [YDict.dupdate, ih _ hd.2]
      by_cases hk : k₀ = k
      · subst hk
        have hrest : rest.dlookup k₀ = none := dlookup_eq_none_of_not_contains _ _ hd.1
        simp [hrest, dlookup_dinsert, YDict.dlookup]
      · simp [YDict.dlookup, hk, dlookup_dinsert]

/- ### Lemmas: existing keys survive resolution (root precedence) -/

@[simp] theorem except_bind_ok {α β : Type} (a : α) (f : α → Except String β) :
    (Bind.bind (Except.ok a) f : Except String β) = f a := rfl

@[simp] theorem except_bind_error {α β : Type} (e : String) (f : α → Except String β) :
    (Bind.bind (Except.error e) f : Except String β) = Except.error e := rfl

theorem mergeDefaultIntoConfig_preserves (config : YDict) (dc : YVal) (out : YDict)
    (k : String) (v : YVal) (h : mergeDefaultIntoConfig config dc = .ok out)
    (hk : config.dlookup k = some v) : out.dlookup k = some v := by
  unfold mergeDefaultIntoConfig at h
  by_cases ht : ytruthy dc = true
  · rw [if_pos ht] at h
    cases dc with
    | dict d =>
        have : out = updateIfAbsent config d := by
          simpa using h.symm
        rw [this, updateIfAbsent_lookup, hk]
        rfl
    | str s => simp at h
    | int n => simp at h
    | bool b => simp at h
    | null => simp at h
    | list l => simp at h
  · rw [if_neg ht] at h
    have : out = config := by simpa using h.symm
    rw [this]
    exact hk

theorem processDefaultItem_int (fs : FS) (config_path : String)
    (st : YDict × Option YVal) (n : Int) :
    processDefaultItem fs config_path st (.int n) = processStaleDefault st := rfl

theorem processDefaultItem_bool (fs : FS) (config_path : String)
    (st : YDict × Option YVal) (b : Bool) :
    processDefaultItem fs config_path st (.bool b) = processStaleDefault st := rfl

theorem processDefaultItem_null (fs : FS) (config_path : String)
    (st : YDict × Option YVal) :
    processDefaultItem fs config_path st .null = processStaleDefault st := rfl

theorem processDefaultItem_list (fs : FS) (config_path : String)
    (st : YDict × Option YVal) (l : YList) :
    processDefaultItem fs config_path st (.list l) = processStaleDefault st := rfl

theorem processStaleDefault_preserves (st st' : YDict × Option YVal)
    (k : String) (v : YVal) (h : processStaleDefault st = .ok st')
    (hk : st.1.dlookup k = some v) : st'.1.dlookup k = some v := by
  obtain ⟨cfg, lastv⟩ := st
  cases lastv with
  | none => simp [processStaleDefault] at h
  | some dcv =>
      rw [processStaleDefault] at h
      cases hm : mergeDefaultIntoConfig cfg dcv with
      | error e => rw [hm] at h; simp at h
      | ok cfg' =>
          rw [hm] at h
          simp only [except_bind_ok] at h
          cases h
          exact mergeDefaultIntoConfig_preserves _ _ _ _ _ hm hk

theorem processDefaultItem_preserves (fs : FS) (config_path : String)
    (st st' : YDict × Option YVal) (item : YVal) (k : String) (v : YVal)
    (h : processDefaultItem fs config_path st item = .ok st')
    (hk : st.1.dlookup k = some v) : st'.1.dlookup k = some v := by
  cases item with
  | dict dy =>
      rw [processDefaultItem] at h
      cases hdc : get_default_args_from_dict fs config_path dy with
      | error e => rw [hdc] at h; simp at h
      | ok dc =>
          rw [hdc] at h
          simp only [except_bind_ok] at h
          cases hm : mergeDefaultIntoConfig st.1 (.dict dc) with
          | error e => rw [hm] at h; simp at h
          | ok cfg =>
              rw [hm] at h
              simp only [except_bind_ok] at h
              cases h
              exact mergeDefaultIntoConfig_preserves _ _ _ _ _ hm hk
  | str s =>
      rw [processDefaultItem] at h
      cases hdc : get_default_args_from_path fs config_path s with
      | error e => rw [hdc] at h; simp at h
      | ok dcv =>
          rw [hdc] at h
          simp only [except_bind_ok] at h
          cases hm : mergeDefaultIntoConfig st.1 dcv with
          | error e => rw [hm] at h; simp at h
          | ok cfg =>
              rw [hm] at h
              simp only [except_bind_ok] at h
              cases h
              exact mergeDefaultIntoConfig_preserves _ _ _ _ _ hm hk
  | int n =>
      rw [processDefaultItem_int] at h
      exact processStaleDefault_preserves _ _ _ _ h hk
  | bool b =>
      rw [processDefaultItem_bool] at h
      exact processStaleDefault_preserves _ _ _ _ h hk
  | null =>
      rw [processDefaultItem_null] at h
      exact processStaleDefault_preserves _ _ _ _ h hk
  | list l =>
      rw [processDefaultItem_list] at h
      exact processStaleDefault_preserves _ _ _ _ h hk

theorem foldDefaults_preserves (fs : FS) (config_path : String)
    (items : List YVal) (st st' : YDict × Option YVal) (k : String) (v : YVal)
    (h : items.foldlM (processDefaultItem fs config_path) st = .ok st')
    (hk : st.1.dlookup k = some v) : st'.1.dlookup k = some v := by
  induction items generalizing st with
  | nil =>
      simp only [List.foldlM] at h
      cases h
      exact hk
  | cons item rest ih =>
      simp only [List.foldlM] at h
      cases hstep : processDefaultItem fs config_path st item with
      | error e => rw [hstep] at h; simp at h
      | ok st₁ =>
          rw [hstep] at h
          simp only [except_bind_ok] at h
          exact ih st₁ h (processDefaultItem_preserves _ _ _ _ _ _ _ hstep hk)

theorem resolveDefaults_lookup_none (fs : FS) (config_path : String)
    (config : YDict) (default_keyword : String)
    (hdef : config.dlookup default_keyword = none) :
    resolveDefaults fs config_path config default_keyword = .ok config := by
  unfold resolveDefaults
  rw [hdef]

theorem resolveDefaults_lookup_dict (fs : FS) (config_path : String)
    (config : YDict) (default_keyword : String) (dpd : YDict)
    (hdef : config.dlookup default_keyword = some (.dict dpd)) :
    resolveDefaults fs config_path config default_keyword
      = Bind.bind (get_default_args_from_dict fs config_path dpd)
          (fun default_config =>
            Bind.bind (mergeDefaultIntoConfig config (.dict default_config))
              (fun config => .ok (config.ddelete default_keyword))) := by
  unfold resolveDefaults
  rw [hdef]

theorem resolveDefaults_lookup_str (fs : FS) (config_path : String)
    (config : YDict) (default_keyword s : String)
    (hdef : config.dlookup default_keyword = some (.str s)) :
    resolveDefaults fs config_path config default_keyword
      = Bind.bind
          ((s.data.map (fun c => YVal.str (String.mk [c]))).foldlM
            (processDefaultItem fs config_path) (config, none))
          (fun st => .ok (st.1.ddelete default_keyword)) := by
  unfold resolveDefaults
  rw [hdef]
  rfl

theorem resolveDefaults_lookup_list (fs : FS) (config_path : String)
    (config : YDict) (default_keyword : String) (l : YList)
    (hdef : config.dlookup default_keyword = some (.list l)) :
    resolveDefaults fs config_path config default_keyword
      = Bind.bind
          (l.toList.foldlM (processDefaultItem fs config_path) (config, none))
          (fun st => .ok (st.1.ddelete default_keyword)) := by
  unfold resolveDefaults
  rw [hdef]
  rfl

theorem resolveDefaults_lookup_int (fs : FS) (config_path : String)
    (config : YDict) (default_keyword : String) (n : Int)
    (hdef : config.dlookup default_keyword = some (.int n)) :
    resolveDefaults fs config_path config default_keyword
      = .error "TypeError: object is not iterable" := by
  unfold resolveDefaults
  rw [hdef]
  rfl

theorem resolveDefaults_lookup_bool (fs : FS) (config_path : String)
    (config : YDict) (default_keyword : String) (b : Bool)
    (hdef : config.dlookup default_keyword = some (.bool b)) :
    resolveDefaults fs config_path config default_keyword
      = .error "TypeError: object is not iterable" := by
  unfold resolveDefaults
  rw [hdef]
  rfl

theorem resolveDefaults_lookup_null (fs : FS) (config_path : String)
    (config : YDict) (default_keyword : String)
    (hdef : config.dlookup default_keyword = some .null) :
    resolveDefaults fs config_path config default_keyword
      = .error "TypeError: object is not iterable" := by
  unfold resolveDefaults
  rw [hdef]
  rfl

theorem resolveDefaults_preserves (fs : FS) (config_path : String)
    (config out : YDict) (default_keyword k : String) (v : YVal)
    (h : resolveDefaults fs config_path config default_keyword = .ok out)
    (hk : config.dlookup k = some v) (hkw : k ≠ default_keyword) :
    out.dlookup k = some v := by
  cases hdef : config.dlookup default_keyword with
  | none =>
      rw [resolveDefaults_lookup_none _ _ _ _ hdef] at h
      cases h
      exact hk
  | some dpd =>
      cases dpd with
      | dict dpd' =>
          rw [resolveDefaults_lookup_dict _ _ _ _ _ hdef] at h
          cases hdc : get_default_args_from_dict fs config_path dpd' with
          | error e => rw [hdc] at h; simp at h
          | ok dc =>
              rw [hdc] at h
              simp only [except_bind_ok] at h
              cases hm : mergeDefaultIntoConfig config (.dict dc) with
              | error e => rw [hm] at h; simp at h
              | ok cfg =>
                  rw [hm] at h
                  simp only [except_bind_ok] at h
                  cases h
                  rw [dlookup_ddelete _ _ _ (fun hh => hkw hh.symm)]
                  exact mergeDefaultIntoConfig_preserves _ _ _ _ _ hm hk
      | str s =>
          rw [resolveDefaults_lookup_str _ _ _ _ _ hdef] at h
          cases hfold : (s.data.map (fun c => YVal.str (String.mk [c]))).foldlM
              (processDefaultItem fs config_path) (config, none) with
          | error e => rw [hfold] at h; simp at h
          | ok st =>
              rw [hfold] at h
              simp only [except_bind_ok] at h
              cases h
              rw [dlookup_ddelete _ _ _ (fun hh => hkw hh.symm)]
              exact foldDefaults_preserves _ _ _ _ _ _ _ hfold hk
      | int n => rw [resolveDefaults_lookup_int _ _ _ _ _ hdef] at h; simp at h
      | bool b => rw [resolveDefaults_lookup_bool _ _ _ _ _ hdef] at h; simp at h
      | null => rw [resolveDefaults_lookup_null _ _ _ _ hdef] at h; simp at h
      | list l =>
          rw [resolveDefaults_lookup_list _ _ _ _ _ hdef] at h
          cases hfold : (YList.toList l).foldlM
              (processDefaultItem fs config_path) (config, none) with
          | error e => rw [hfold] at h; simp at h
          | ok st =>
              rw [hfold] at h
              simp only [except_bind_ok] at h
              cases h
              rw [dlookup_ddelete _ _ _ (fun hh => hkw hh.symm)]
              exact foldDefaults_preserves _ _ _ _ _ _ _ hfold hk


theorem unpackLoop_nil (fs : FS) (config_path collection_keyword : String)
    (config : YDict) :
    unpackLoop fs config_path collection_keyword .nil config
      = .ok (config.ddelete collection_keyword) := rfl

theorem unpackLoop_cons_dict (fs : FS) (config_path collection_keyword ck : String)
    (ce rest config : YDict) :
    unpackLoop fs config_path collection_keyword (.cons ck (.dict ce) rest) config
      = if config.dmem ck then .ok config
        else (buildSubEntries fs config_path ce).bind
          (fun sub => unpackLoop fs config_path collection_keyword rest
            (config.dinsert ck (.dict sub))) := rfl

theorem unpackLoop_cons_str (fs : FS) (config_path collection_keyword ck p : String)
    (rest config : YDict) :
    unpackLoop fs config_path collection_keyword (.cons ck (.str p) rest) config
      = if config.dmem ck then .ok config
        else (get_default_args_from_path fs config_path p).bind
          (fun subconfig => unpackLoop fs config_path collection_keyword rest
            (config.dinsert ck subconfig)) := rfl

theorem unpackLoop_cons_int (fs : FS) (config_path collection_keyword ck : String)
    (n : Int) (rest config : YDict) :
    unpackLoop fs config_path collection_keyword (.cons ck (.int n) rest) config
      = if config.dmem ck then .ok config
        else .error "AttributeError: .endswith on a non-string path" := rfl

theorem unpackLoop_cons_bool (fs : FS) (config_path collection_keyword ck : String)
    (b : Bool) (rest config : YDict) :
    unpackLoop fs config_path collection_keyword (.cons ck (.bool b) rest) config
      = if config.dmem ck then .ok config
        else .error "AttributeError: .endswith on a non-string path" := rfl

theorem unpackLoop_cons_null (fs : FS) (config_path collection_keyword ck : String)
    (rest config : YDict) :
    unpackLoop fs config_path collection_keyword (.cons ck .null rest) config
      = if config.dmem ck then .ok config
        else .error "AttributeError: .endswith on a non-string path" := rfl

theorem unpackLoop_cons_list (fs : FS) (config_path collection_keyword ck : String)
    (l : YList) (rest config : YDict) :
    unpackLoop fs config_path collection_keyword (.cons ck (.list l) rest) config
      = if config.dmem ck then .ok config
        else .error "AttributeError: .endswith on a non-string path" := rfl

theorem unpackLoop_preserves (fs : FS) (config_path collection_keyword : String)
    (entries : YDict) (config out : YDict) (k : String) (v : YVal)
    (h : unpackLoop fs config_path collection_keyword entries config = .ok out)
    (hk : config.dlookup k = some v) (hkw : k ≠ collection_keyword) :
    out.dlookup k = some v := by
  induction entries generalizing config with
  | nil =>
      rw [unpackLoop_nil] at h
      cases h
      rw [dlookup_ddelete _ _ _ (fun hh => hkw hh.symm)]
      exact hk
  | cons ck entry rest ih =>
      have hinsert : ∀ (w : YVal), config.dmem ck = false →
          (config.dinsert ck w).dlookup k = some v := by
        intro w hmem
        have hck : ¬ ck = k := by
          intro hh
          subst hh
          rw [dmem_eq_isSome, hk] at hmem
          simp at hmem
        rw [dlookup_dinsert, if_neg hck]
        exact hk
      cases entry with
      | dict ce =>
          rw [unpackLoop_cons_dict] at h
          by_cases hmem : config.dmem ck = true
          · rw [if_pos hmem] at h
            cases h
            exact hk
          · rw [if_neg hmem] at h
            cases hsub : buildSubEntries fs config_path ce with
            | error e => rw [hsub] at h; simp [Except.bind] at h
            | ok sub =>
                rw [hsub] at h
                simp only [Except.bind] at h
                exact ih _ h (hinsert _ (by simpa using hmem))
      | str p =>
          rw [unpackLoop_cons_str] at h
          by_cases hmem : config.dmem ck = true
          · rw [if_pos hmem] at h
            cases h
            exact hk
          · rw [if_neg hmem] at h
            cases hsub : get_default_args_from_path fs config_path p with
            | error e => rw [hsub] at h; simp [Except.bind] at h
            | ok subconfig =>
                rw [hsub] at h
                simp only [Except.bind] at h
                exact ih _ h (hinsert _ (by simpa using hmem))
      | int n =>
          rw [unpackLoop_cons_int] at h
          by_cases hmem : config.dmem ck = true
          · rw [if_pos hmem] at h
            cases h
            exact hk
          · rw [if_neg hmem] at h
            simp at h
      | bool b =>
          rw [unpackLoop_cons_bool] at h
          by_cases hmem : config.dmem ck = true
          · rw [if_pos hmem] at h
            cases h
            exact hk
          · rw [if_neg hmem] at h
            simp at h
      | null =>
          rw [unpackLoop_cons_null] at h
          by_cases hmem : config.dmem ck = true
          · rw [if_pos hmem] at h
            cases h
            exact hk
          · rw [if_neg hmem] at h
            simp at h
      | list l =>
          rw [unpackLoop_cons_list] at h
          by_cases hmem : config.dmem ck = true
          · rw [if_pos hmem] at h
            cases h
            exact hk
          · rw [if_neg hmem] at h
            simp at h

theorem unpack_collection_lookup_dict (fs : FS) (config : YDict)
    (config_path collection_keyword : String) (cd : YDict)
    (hcd : config.dlookup collection_keyword = some (.dict cd)) :
    unpack_collection fs config config_path collection_keyword
      = unpackLoop fs config_path collection_keyword cd config := by
  unfold unpack_collection
  rw [hcd]

theorem unpack_collection_preserves (fs : FS) (config out : YDict)
    (config_path collection_keyword k : String) (v : YVal)
    (h : unpack_collection fs config config_path collection_keyword = .ok out)
    (hk : config.dlookup k = some v) (hkw : k ≠ collection_keyword) :
    out.dlookup k = some v := by
  cases hcd : config.dlookup collection_keyword with
  | none =>
      unfold unpack_collection at h
      rw [hcd] at h
      simp at h
  | some cv =>
      cases cv with
      | dict cd =>
          rw [unpack_collection_lookup_dict _ _ _ _ _ hcd] at h
          exact unpackLoop_preserves _ _ _ _ _ _ _ _ h hk hkw
      | str s =>
          have : unpack_collection fs config config_path collection_keyword
              = .error "AttributeError: .keys() on a non-dict collection" := by
            unfold unpack_collection
            rw [hcd]
          rw [this] at h
          simp at h
      | int n =>
          have : unpack_collection fs config config_path collection_keyword
              = .error "AttributeError: .keys() on a non-dict collection" := by
            unfold unpack_collection
            rw [hcd]
          rw [this] at h
          simp at h
      | bool b =>
          have : unpack_collection fs config config_path collection_keyword
              = .error "AttributeError: .keys() on a non-dict collection" := by
            unfold unpack_collection
            rw [hcd]
          rw [this] at h
          simp at h
      | null =>
          have : unpack_collection fs config config_path collection_keyword
              = .error "AttributeError: .keys() on a non-dict collection" := by
            unfold unpack_collection
            rw [hcd]
          rw [this] at h
          simp at h
      | list l =>
          have : unpack_collection fs config config_path collection_keyword
              = .error "AttributeError: .keys() on a non-dict collection" := by
            unfold unpack_collection
            rw [hcd]
          rw [this] at h
          simp at h


/- ### Claim C1 -/

/-- C1: Root-precedence law — for every root document and every resolved
default fragment, and for every (non-keyword) key present in both, the
resolved output of `load_yaml_config` holds the root document's value for
that key; fragment values are added only for keys not already present in
the root. -/
theorem load_yaml_config_root_precedence (fs : FS)
    (config_path config_name default_keyword collection_keyword : String)
    (root out : YDict) (k : String) (v : YVal)
    (hroot : open_yaml fs (osPathJoin config_path config_name) = .ok (.dict root))
    (h : load_yaml_config fs config_path config_name default_keyword collection_keyword
          = .ok out)
    (hk : root.dlookup k = some v)
    (hdkw : k ≠ default_keyword) (hckw : k ≠ collection_keyword) :
    out.dlookup k = some v := by
  unfold load_yaml_config at h
  rw [hroot] at h
  simp only [except_bind_ok] at h
  rw [show asDict (.dict root) = .ok root from rfl] at h
  simp only [except_bind_ok] at h
  cases hres : resolveDefaults fs config_path root default_keyword with
  | error e => rw [hres] at h; simp at h
  | ok cfg =>
      rw [hres] at h
      simp only [except_bind_ok] at h
      have hcfg : cfg.dlookup k = some v :=
        resolveDefaults_preserves _ _ _ _ _ _ _ hres hk hdkw
      by_cases hmem : cfg.dmem collection_keyword = true
      · rw [if_pos hmem] at h
        exact unpack_collection_preserves _ _ _ _ _ _ _ h hcfg hckw
      · rw [if_neg hmem] at h
        cases h
        exact hcfg

/-- The file system of the spec's own precedence scenario: a root document
`{a: 1, defaults: [base]}` and a fragment `base.yaml = {a: 2, b: 3}`. -/
def fsC1 : FS := fun p =>
  if p = "cfg/main.yaml" then
    some (.dict (.ofList [("a", .int 1), ("defaults", .list (.ofList [.str "base"]))]))
  else if p = "cfg/base.yaml" then
    some (.dict (.ofList [("a", .int 2), ("b", .int 3)]))
  else none

/-- Witness for C1 at the spec's scenario: the resolved output is
`{a: 1, b: 3}`, and the theorem yields `a = 1` (the root's value, not the
fragment's `2`). -/
theorem load_yaml_config_root_precedence_witness :
    open_yaml fsC1 (osPathJoin "cfg" "main.yaml")
        = .ok (.dict (.ofList [("a", .int 1), ("defaults", .list (.ofList [.str "base"]))]))
      ∧ load_yaml_config fsC1 "cfg" "main.yaml" "defaults" "keyring"
        = .ok (.ofList [("a", .int 1), ("b", .int 3)])
      ∧ YDict.dlookup (.ofList [("a", .int 1), ("b", .int 3)]) "a" = some (.int 1) :=
  ⟨rfl, rfl,
    load_yaml_config_root_precedence fsC1 "cfg" "main.yaml" "defaults" "keyring"
      (.ofList [("a", .int 1), ("defaults", .list (.ofList [.str "base"]))])
      (.ofList [("a", .int 1), ("b", .int 3)]) "a" (.int 1)
      rfl rfl rfl (by decide) (by decide)⟩

/- ### Claims C3 and C4 -/

/-- A root document `{db: 1, keyring: {db: db_config}}` whose keyring
collection key `db` collides with an existing top-level key, plus the
referenced sub-document. -/
def fsC3 : FS := fun p =>
  if p = "cfg/main.yaml" then
    some (.dict (.ofList
      [("db", .int 1), ("keyring", .dict (.ofList [("db", .str "db_config")]))]))
  else if p = "cfg/db_config.yaml" then
    some (.dict (.ofList [("host", .str "x")]))
  else none

/-- The root document of `fsC3` as a dict. -/
def rootC3 : YDict :=
  .ofList [("db", .int 1), ("keyring", .dict (.ofList [("db", .str "db_config")]))]

/-- C3: Keyring collision law — refuted by the code: on a collision
`unpack_collection` executes `return ValueError(...)` instead of `raise`,
so no exception is raised, the caller discards the returned error object,
and `load_yaml_config` returns a successfully resolved mapping (with the
existing key untouched). -/
theorem unpack_collection_collision_no_raise :
    unpack_collection fsC3 rootC3 "cfg" "keyring" = .ok rootC3
      ∧ load_yaml_config fsC3 "cfg" "main.yaml" "defaults" "keyring" = .ok rootC3 :=
  ⟨rfl, rfl⟩

/-- C4: Keyword-stripping invariant — refuted by the code on the keyring
collision path: `return ValueError(...)` exits `unpack_collection` before
`del config[collection_keyword]`, so the returned mapping still contains
the collection keyword as a key. -/
theorem load_yaml_config_keyword_retained :
    load_yaml_config fsC3 "cfg" "main.yaml" "defaults" "keyring" = .ok rootC3
      ∧ (rootC3.dlookup "keyring").isSome = true :=
  ⟨rfl, rfl⟩

/- ### Claim C5 -/

/-- C5 (amended): extension tie-break of the document loader — when both
the `.yml` and the `.yaml` file exist at the base path, `find_yaml_path`
deterministically selects the `.yml` file (the code tests `.yml` first);
when exactly one exists it selects that one; when neither exists it
fails. -/
theorem find_yaml_path_tie_break (fs : FS) (file_path : String) :
    ((fs (splitextRoot file_path ++ ".yml")).isSome = true →
      find_yaml_path fs file_path = .ok (splitextRoot file_path ++ ".yml"))
    ∧ (fs (splitextRoot file_path ++ ".yml") = none →
       (fs (splitextRoot file_path ++ ".yaml")).isSome = true →
      find_yaml_path fs file_path = .ok (splitextRoot file_path ++ ".yaml"))
    ∧ (fs (splitextRoot file_path ++ ".yml") = none →
       fs (splitextRoot file_path ++ ".yaml") = none →
      find_yaml_path fs file_path
        = .error ("FileNotFoundError: No YAML file found with either extension for path: "
            ++ splitextRoot file_path)) := by
  refine ⟨fun h₁ => ?_, fun h₁ h₂ => ?_, fun h₁ h₂ => ?_⟩
  · unfold find_yaml_path
    rw [if_pos h₁]
  · unfold find_yaml_path
    rw [if_neg (by rw [h₁]; simp), if_pos h₂]
  · unfold find_yaml_path
    rw [if_neg (by rw [h₁]; simp), if_neg (by rw [h₂]; simp)]

/-- A base path at which both the `.yml` and the `.yaml` file exist. -/
def fsC5 : FS := fun p =>
  if p = "p.yml" then some (.dict .nil)
  else if p = "p.yaml" then some (.dict .nil)
  else none

/-- A base path at which only the `.yaml` file exists. -/
def fsC5yaml : FS := fun p => if p = "p.yaml" then some (.dict .nil) else none

/-- A file system with no file at all. -/
def fsC5none : FS := fun _ => none

/-- C5 counterexample: with both `p.yml` and `p.yaml` present the loader
selects `p.yml`, not the `.yaml` file the claim promises. -/
theorem find_yaml_path_prefers_yml :
    find_yaml_path fsC5 "p" = .ok "p.yml" ∧ ("p.yml" : String) ≠ "p.yaml" :=
  ⟨rfl, by decide⟩

/-- Witness for the amended C5 at concrete file systems: both-present
picks `.yml`, `.yaml`-only picks `.yaml`, neither fails. -/
theorem find_yaml_path_tie_break_witness :
    find_yaml_path fsC5 "p" = .ok ("p" ++ ".yml")
    ∧ find_yaml_path fsC5yaml "p" = .ok ("p" ++ ".yaml")
    ∧ find_yaml_path fsC5none "p"
        = .error ("FileNotFoundError: No YAML file found with either extension for path: "
            ++ "p") :=
  ⟨(find_yaml_path_tie_break fsC5 "p").1 rfl,
   (find_yaml_path_tie_break fsC5yaml "p").2.1 rfl rfl,
   (find_yaml_path_tie_break fsC5none "p").2.2 rfl rfl⟩

/- ### Claim C8 -/

/-- C8: deletion — refuted by the code: `Config.__delitem__` calls
`self.__delattr__()` without the key argument, so every `del cfg[k]`
raises `TypeError` and no key is ever removed. -/
theorem config_delitem_always_raises (config : YDict) (key : String) :
    config_delitem config key
      = .error "TypeError: __delattr__ expected 1 argument, got 0" := rfl

/- ### Claim C9 -/

/-- `String.mk` undoes `String.data`. -/
theorem string_mk_data (s : String) : String.mk s.data = s := by
  cases s
  rfl

/-- The default value of a `$`-sigil flag: the environment variable of the
sigil-stripped name when set, the document's literal value otherwise. -/
def envDefault (env : Env) (name : String) (value : YVal) : YVal :=
  match env name with
  | some s => YVal.str s
  | none => value

/-- C9 at the character level: the key is written `String.mk ('$' :: nm)`
so that the sigil match reduces definitionally. -/
theorem add_args_env_sigil_chars (env : Env) (d : YDict) (prefix_ : String)
    (nm : List Char) (v : YVal)
    (hk : d.dlookup (String.mk ('$' :: nm)) = some v)
    (hnd : ∀ sub, v ≠ YVal.dict sub) :
    (ArgSpec.mk ("--" ++ prefix_ ++ String.mk nm) (envDefault env (String.mk nm) v) false)
      ∈ add_args_from_dict env d prefix_ := by
  induction d with
  | nil => simp [YDict.dlookup] at hk
  | cons k v' rest ih =>
      by_cases hke : k = String.mk ('$' :: nm)
      · subst hke
        rw [YDict.dlookup, if_pos rfl] at hk
        have hv : v' = v := by
          cases hk
          rfl
        subst hv
        cases v' with
        | dict sub => exact absurd rfl (hnd sub)
        | str s => exact List.mem_append_left _ (List.mem_singleton.mpr rfl)
        | int n => exact List.mem_append_left _ (List.mem_singleton.mpr rfl)
        | bool b => exact List.mem_append_left _ (List.mem_singleton.mpr rfl)
        | null => exact List.mem_append_left _ (List.mem_singleton.mpr rfl)
        | list l => exact List.mem_append_left _ (List.mem_singleton.mpr rfl)
      · rw [YDict.dlookup, if_neg hke] at hk
        cases v' with
        | dict sub => exact List.mem_append_right _ (ih hk)
        | str s => exact List.mem_append_right _ (ih hk)
        | int n => exact List.mem_append_right _ (ih hk)
        | bool b => exact List.mem_append_right _ (ih hk)
        | null => exact List.mem_append_right _ (ih hk)
        | list l => exact List.mem_append_right _ (ih hk)

/-- C9: Environment-variable sigil — for every scalar config value bound
to a key `"$" ++ name`, `add_args_from_dict` synthesizes the flag
`--prefix ++ name` (sigil stripped) whose default is the environment
variable `name` when set and the document's literal value otherwise. -/
theorem add_args_env_sigil (env : Env) (d : YDict) (prefix_ name : String) (v : YVal)
    (hk : d.dlookup ("$" ++ name) = some v)
    (hnd : ∀ sub, v ≠ YVal.dict sub) :
    (ArgSpec.mk ("--" ++ prefix_ ++ name) (envDefault env name v) false)
      ∈ add_args_from_dict env d prefix_ := by
  have hkey : ("$" ++ name : String) = String.mk ('$' :: name.data) := by
    cases name
    rfl
  rw [hkey] at hk
  have := add_args_env_sigil_chars env d prefix_ name.data v hk hnd
  rwa [string_mk_data] at this

/-- The environment of the spec's scenario: `TOKEN=abc`. -/
def envC9 : Env := fun n => if n = "TOKEN" then some "abc" else none

/-- Witness for C9 at the spec's scenario: key `"$TOKEN"` with document
value `"lit"` and environment `TOKEN=abc` yields the flag `--TOKEN` with
default `"abc"`. -/
theorem add_args_env_sigil_witness :
    (ArgSpec.mk "--TOKEN" (.str "abc") false)
      ∈ add_args_from_dict envC9 (.ofList [("$TOKEN", .str "lit"), ("x", .int 5)]) "" := by
  have h := add_args_env_sigil envC9 (.ofList [("$TOKEN", .str "lit"), ("x", .int 5)])
    "" "TOKEN" (.str "lit") rfl (by intro sub hh; cases hh)
  simpa using h

/- ### Claim C10 -/

/-- Whether a Python call completed without raising. -/
def exOk {α : Type} : Except String α → Bool
  | .ok _ => true
  | .error _ => false

@[simp] theorem exOk_ok {α : Type} (a : α) : exOk (.ok a) = true := rfl

@[simp] theorem exOk_error {α : Type} (e : String) : exOk (.error e : Except String α) = false := rfl

mutual

/-- `dict_to_path` succeeds exactly on good mappings, for every parent
key. -/
theorem dict_to_path_isOk : ∀ (d : YDict) (p : String), exOk (dict_to_path d p) = goodDict d
  | .nil, _ => rfl
  | .cons key value rest, parent_key => by
      have h1 := dtpValue_isOk value
        (if parent_key.data.isEmpty then key else osPathJoin parent_key key)
      have h2 := dict_to_path_isOk rest parent_key
      show exOk (Bind.bind (dtpValue value
              (if parent_key.data.isEmpty then key else osPathJoin parent_key key))
            (fun a => Bind.bind (dict_to_path rest parent_key)
              (fun b => Except.ok (a ++ b))))
          = (goodValue value && goodDict rest)
      cases hv : dtpValue value
          (if parent_key.data.isEmpty then key else osPathJoin parent_key key) with
      | error e =>
          rw [hv] at h1
          rw [except_bind_error]
          simp [← h1]
      | ok a =>
          rw [hv] at h1
          rw [except_bind_ok]
          cases hr : dict_to_path rest parent_key with
          | error e =>
              rw [hr] at h2
              rw [except_bind_error]
              simp [← h1, ← h2]
          | ok b =>
              rw [hr] at h2
              rw [except_bind_ok]
              simp [← h1, ← h2]

/-- Value-position analogue of `dict_to_path_isOk`. -/
theorem dtpValue_isOk : ∀ (v : YVal) (p : String), exOk (dtpValue v p) = goodValue v
  | .dict d, p => dict_to_path_isOk d p
  | .list xs, p => dtpList_isOk xs p
  | .str _, _ => rfl
  | .int _, _ => rfl
  | .bool _, _ => rfl
  | .null, _ => rfl

/-- Sequence analogue of `dict_to_path_isOk`. -/
theorem dtpList_isOk : ∀ (l : YList) (p : String), exOk (dtpList l p) = goodListB l
  | .nil, _ => rfl
  | .cons x xs, new_key => by
      have h1 := dtpElem_isOk x new_key
      have h2 := dtpList_isOk xs new_key
      show exOk (Bind.bind (dtpElem x new_key)
            (fun a => Bind.bind (dtpList xs new_key)
              (fun b => Except.ok (a ++ b))))
          = (goodElem x && goodListB xs)
      cases hv : dtpElem x new_key with
      | error e =>
          rw [hv] at h1
          rw [except_bind_error]
          simp [← h1]
      | ok a =>
          rw [hv] at h1
          rw [except_bind_ok]
          cases hr : dtpList xs new_key with
          | error e =>
              rw [hr] at h2
              rw [except_bind_error]
              simp [← h1, ← h2]
          | ok b =>
              rw [hr] at h2
              rw [except_bind_ok]
              simp [← h1, ← h2]

/-- Sequence-element analogue of `dict_to_path_isOk`. -/
theorem dtpElem_isOk : ∀ (x : YVal) (p : String), exOk (dtpElem x p) = goodElem x
  | .dict d, p => dict_to_path_isOk d p
  | .str _, _ => rfl
  | .int _, _ => rfl
  | .bool _, _ => rfl
  | .null, _ => rfl
  | .list _, _ => rfl

end

mutual

/-- A mapping with a non-string scalar leaf is not good. -/
theorem bad_dict_not_good : ∀ (d : YDict), hasBadScalarDict d = true → goodDict d = false
  | .nil => fun h => by cases h
  | .cons _ v rest => by
      intro h
      rw [show hasBadScalarDict (.cons _ v rest)
            = (hasBadScalarValue v || hasBadScalarDict rest) from rfl] at h
      rw [show goodDict (.cons _ v rest) = (goodValue v && goodDict rest) from rfl]
      rcases (Bool.or_eq_true _ _).mp h with hv | hr
      · rw [bad_value_not_good v hv]
        simp
      · rw [bad_dict_not_good rest hr]
        simp

/-- A value position with a non-string scalar leaf is not good. -/
theorem bad_value_not_good : ∀ (v : YVal), hasBadScalarValue v = true → goodValue v = false
  | .dict d => fun h => bad_dict_not_good d h
  | .list xs => fun h => bad_list_not_good xs h
  | .str _ => fun h => by cases h
  | .int _ => fun _ => rfl
  | .bool _ => fun _ => rfl
  | .null => fun _ => rfl

/-- A sequence with a non-string scalar leaf is not good. -/
theorem bad_list_not_good : ∀ (l : YList), hasBadScalarList l = true → goodListB l = false
  | .nil => fun h => by cases h
  | .cons x xs => by
      intro h
      rw [show hasBadScalarList (.cons x xs)
            = (hasBadScalarElem x || hasBadScalarList xs) from rfl] at h
      rw [show goodListB (.cons x xs) = (goodElem x && goodListB xs) from rfl]
      rcases (Bool.or_eq_true _ _).mp h with hv | hr
      · rw [bad_elem_not_good x hv]
        simp
      · rw [bad_list_not_good xs hr]
        simp

/-- A sequence element that is a non-string scalar leaf is not good. -/
theorem bad_elem_not_good : ∀ (x : YVal), hasBadScalarElem x = true → goodElem x = false
  | .dict d => fun h => bad_dict_not_good d h
  | .str _ => fun h => by cases h
  | .list _ => fun h => by cases h
  | .int _ => fun _ => rfl
  | .bool _ => fun _ => rfl
  | .null => fun _ => rfl

end

/-- C10: Totality of the path flattener — `dict_to_path` succeeds on every
nested mapping whose non-mapping, non-sequence values are strings and
whose sequence elements are strings or mappings; and it fails on every
mapping containing a non-string scalar leaf (the leaf would be
`os.path.join`ed as a string). -/
theorem dict_to_path_totality (d : YDict) (p : String) :
    (goodDict d = true → exOk (dict_to_path d p) = true)
    ∧ (hasBadScalarDict d = true → exOk (dict_to_path d p) = false) := by
  constructor
  · intro h
    rw [dict_to_path_isOk, h]
  · intro h
    rw [dict_to_path_isOk]
    exact bad_dict_not_good d h

/-- Witness for C10: a good mapping (nested dicts, a string leaf, a list
of a string and a dict) flattens successfully; a mapping with an integer
leaf fails. -/
theorem dict_to_path_totality_witness :
    exOk (dict_to_path (.ofList [("a", .dict (.ofList [("b", .str "c")])),
        ("l", .list (.ofList [.str "x", .dict (.ofList [("y", .str "z")])]))]) "") = true
    ∧ exOk (dict_to_path (.ofList [("a", .int 3)]) "") = false :=
  ⟨(dict_to_path_totality (.ofList [("a", .dict (.ofList [("b", .str "c")])),
      ("l", .list (.ofList [.str "x", .dict (.ofList [("y", .str "z")])]))]) "").1 rfl,
   (dict_to_path_totality (.ofList [("a", .int 3)]) "").2 rfl⟩

/- ### Claim C7 -/

/-- A root document referencing the default fragment `missing`, for which
no file exists under either extension. -/
def fsC7missing : FS := fun p =>
  if p = "cfg/main.yaml" then
    some (.dict (.ofList [("a", .int 1), ("defaults", .list (.ofList [.str "missing"]))]))
  else none

/-- C7 counterexample: a default-fragment reference whose document is
missing on disk makes resolution raise `FileNotFoundError` instead of
being treated as an empty mapping. -/
theorem load_yaml_config_missing_fragment_raises :
    load_yaml_config fsC7missing "cfg" "main.yaml" "defaults" "keyring"
      = .error ("FileNotFoundError: No YAML file found with either extension for path: "
          ++ "cfg/missing") := rfl

/-- C7 (amended): an *empty* default-fragment document (parsed as `None`)
contributes nothing and raises no error, in both the sequence form
(`processDefaultItem` leaves the config untouched) and the mapping form
(`mergeFragments` skips the falsy fragment); a *missing* fragment
document, by contrast, raises `FileNotFoundError` from `find_yaml_path`,
which propagates out of the fragment-loading step. -/
theorem empty_fragment_tolerated_missing_raises :
    (∀ (fs : FS) (config_path p : String) (st : YDict × Option YVal),
      get_default_args_from_path fs config_path p = .ok .null →
      processDefaultItem fs config_path st (.str p) = .ok (st.1, some .null))
    ∧ (∀ (cs₁ cs₂ : List YVal),
        mergeFragments (cs₁ ++ YVal.null :: cs₂) = mergeFragments (cs₁ ++ cs₂))
    ∧ (∀ (fs : FS) (config_path p e : String) (st : YDict × Option YVal),
        get_default_args_from_path fs config_path p = .error e →
        processDefaultItem fs config_path st (.str p) = .error e)
    ∧ (∀ (fs : FS) (config_path p : String),
        fs (splitextRoot (osPathJoin config_path (add_yaml_extension p)) ++ ".yml") = none →
        fs (splitextRoot (osPathJoin config_path (add_yaml_extension p)) ++ ".yaml") = none →
        get_default_args_from_path fs config_path p
          = .error ("FileNotFoundError: No YAML file found with either extension for path: "
              ++ splitextRoot (osPathJoin config_path (add_yaml_extension p)))) := by
  refine ⟨fun fs config_path p st h => ?_, fun cs₁ cs₂ => ?_,
    fun fs config_path p e st h => ?_, fun fs config_path p h₁ h₂ => ?_⟩
  · rw [processDefaultItem, h]
    rfl
  · unfold mergeFragments
    rw [List.foldlM_append, List.foldlM_append]
    cases h₁ : cs₁.foldlM mergeFragmentStep YDict.nil with
    | error e => rfl
    | ok acc => rfl
  · rw [processDefaultItem, h]
    rfl
  · simp only [get_default_args_from_path, open_yaml, find_yaml_path]
    rw [h₁, h₂]
    simp

/-- A root document referencing the default fragment `opt`, whose file
exists but is empty (parses to `None`). -/
def fsC7empty : FS := fun p =>
  if p = "cfg/main.yaml" then
    some (.dict (.ofList [("a", .int 1), ("defaults", .list (.ofList [.str "opt"]))]))
  else if p = "cfg/opt.yaml" then some .null
  else none

/-- Witness for the amended C7: the empty `opt.yaml` is skipped without
error (sequence and mapping forms), and a missing fragment is a
`FileNotFoundError`. -/
theorem empty_fragment_tolerated_missing_raises_witness :
    processDefaultItem fsC7empty "cfg"
        (.ofList [("a", .int 1)], none) (.str "opt")
      = .ok (.ofList [("a", .int 1)], some .null)
    ∧ mergeFragments [.dict (.ofList [("x", .int 7)]), YVal.null]
        = mergeFragments [.dict (.ofList [("x", .int 7)])]
    ∧ processDefaultItem fsC7missing "cfg" (.ofList [("a", .int 1)], none) (.str "missing")
      = .error ("FileNotFoundError: No YAML file found with either extension for path: "
          ++ "cfg/missing")
    ∧ get_default_args_from_path fsC7missing "cfg" "missing"
      = .error ("FileNotFoundError: No YAML file found with either extension for path: "
          ++ splitextRoot (osPathJoin "cfg" (add_yaml_extension "missing"))) := by
  refine ⟨?_, ?_, ?_, ?_⟩
  · exact empty_fragment_tolerated_missing_raises.1 fsC7empty "cfg" "opt"
      (.ofList [("a", .int 1)], none) rfl
  · exact empty_fragment_tolerated_missing_raises.2.1
      [.dict (.ofList [("x", .int 7)])] []
  · exact empty_fragment_tolerated_missing_raises.2.2.1 fsC7missing "cfg" "missing" _
      (.ofList [("a", .int 1)], none) rfl
  · exact empty_fragment_tolerated_missing_raises.2.2.2 fsC7missing "cfg" "missing" rfl rfl

/- ### Claim C2 -/

/-- A mapping-form defaults declaration selecting two fragments,
`d/f1.yaml = {k: v1}` (declared first) and `d/f2.yaml = {k: v2}`
(declared second). -/
def fsC2 : FS := fun p =>
  if p = "cfg/main.yaml" then
    some (.dict (.ofList
      [("defaults", .dict (.ofList [("d", .list (.ofList [.str "f1", .str "f2"]))]))]))
  else if p = "cfg/d/f1.yaml" then some (.dict (.ofList [("k", .str "v1")]))
  else if p = "cfg/d/f2.yaml" then some (.dict (.ofList [("k", .str "v2")]))
  else none

/-- C2 counterexample: in the mapping form of the defaults declaration the
merged fragment holds `v2`, the value of the *later* fragment — the dict
comprehension in `get_default_args_from_dict` lets later fragments
overwrite earlier ones, so first-writer-wins fails. -/
theorem mapping_form_later_fragment_wins :
    get_default_args_from_dict fsC2 "cfg"
        (.ofList [("d", .list (.ofList [.str "f1", .str "f2"]))])
      = .ok (.ofList [("k", .str "v2")])
    ∧ load_yaml_config fsC2 "cfg" "main.yaml" "defaults" "keyring"
      = .ok (.ofList [("k", .str "v2")])
    ∧ YVal.str "v2" ≠ YVal.str "v1" :=
  ⟨rfl, rfl, by simp⟩

/-- `processDefaultItem` on a string item whose fragment loads as a dict:
the fragment is merged keep-existing-keys and remembered. -/
theorem processDefaultItem_str_dict (fs : FS) (config_path : String)
    (st : YDict × Option YVal) (p : String) (d : YDict)
    (h : get_default_args_from_path fs config_path p = .ok (.dict d)) :
    processDefaultItem fs config_path st (.str p)
      = .ok (updateIfAbsent st.1 d, some (.dict d)) := by
  rw [processDefaultItem, h]
  cases d with
  | nil => rfl
  | cons k v tl => rfl

/-- The sequence-form defaults loop over string items computes the
iterated `updateIfAbsent` of the loaded fragments. -/
theorem foldDefaults_str_eq_chainUpdate (fs : FS) (config_path : String) :
    ∀ (ps : List String) (ds : List YDict) (config : YDict) (lv : Option YVal),
    List.Forall₂
      (fun p d => get_default_args_from_path fs config_path p = .ok (.dict d)) ps ds →
    ∃ lv', (ps.map YVal.str).foldlM (processDefaultItem fs config_path) (config, lv)
        = .ok (chainUpdate config ds, lv') := by
  intro ps ds config lv hfa
  induction hfa generalizing config lv with
  | nil => exact ⟨lv, rfl⟩
  | cons hpd _ ih =>
      rename_i p d ps' ds' _
      simp only [List.map, List.foldlM]
      rw [processDefaultItem_str_dict fs config_path _ _ _ hpd]
      simp only [except_bind_ok]
      exact ih (updateIfAbsent config d) (some (.dict d))

/-- Key view of `chainUpdate`: the accumulated config wins, then the
earliest fragment that binds the key. -/
theorem chainUpdate_lookup :
    ∀ (ds : List YDict) (config : YDict) (k : String),
    (chainUpdate config ds).dlookup k
      = ofirst (config.dlookup k) (firstIn ds k) := by
  intro ds
  induction ds with
  | nil => intro config k; simp [chainUpdate, firstIn]
  | cons d rest ih =>
      intro config k
      rw [chainUpdate, ih, updateIfAbsent_lookup, ofirst_assoc]
      rfl

/-- `mergeFragments` on dict fragments is the iterated dict update. -/
theorem mergeFragments_dicts :
    ∀ (ds : List YDict) (acc : YDict),
    (ds.map YVal.dict).foldlM mergeFragmentStep acc = .ok (chainDupdate acc ds) := by
  intro ds
  induction ds with
  | nil => intro acc; rfl
  | cons d rest ih =>
      intro acc
      simp only [List.map, List.foldlM]
      have hstep : mergeFragmentStep acc (.dict d) = .ok (acc.dupdate d) := by
        cases d with
        | nil => rfl
        | cons k v tl => rfl
      rw [hstep]
      simp only [except_bind_ok]
      exact ih (acc.dupdate d)

/-- Key view of `chainDupdate`: the latest fragment that binds the key
wins, then the accumulator. -/
theorem chainDupdate_lookup :
    ∀ (ds : List YDict) (acc : YDict) (k : String),
    (∀ d ∈ ds, distinctKeys d = true) →
    (chainDupdate acc ds).dlookup k
      = ofirst (lastIn ds k) (acc.dlookup k) := by
  intro ds
  induction ds with
  | nil => intro acc k _; simp [chainDupdate, lastIn]
  | cons d rest ih =>
      intro acc k hd
      rw [chainDupdate, ih _ _ (fun d' hd' => hd d' (List.mem_cons_of_mem _ hd')),
        dupdate_lookup _ _ _ (hd d (List.mem_cons_self _ _)), ← ofirst_assoc]
      rfl

/-- C2 (amended): merge order of default fragments — in the *sequence*
form the fragment appearing earliest in declaration order wins
(first-writer-wins across items, because already-present keys are never
overwritten), while in the *mapping* form the fragment appearing
*latest* wins (the dict comprehension of `get_default_args_from_dict`
lets later fragments overwrite earlier ones); for keys absent from the
accumulated root config the sequence-form result is the earliest
fragment's value. -/
theorem defaults_fragment_merge_order :
    (∀ (fs : FS) (config_path : String) (dpd : YDict) (paths : List String)
        (cs : List YVal),
      get_default_yaml_paths_from_dict dpd = .ok paths →
      paths.mapM (fun p => open_yaml fs (osPathJoin config_path p)) = .ok cs →
      get_default_args_from_dict fs config_path dpd = mergeFragments cs)
    ∧ (∀ (ds : List YDict),
        (∀ d ∈ ds, distinctKeys d = true) →
        mergeFragments (ds.map YVal.dict) = .ok (chainDupdate .nil ds)
          ∧ ∀ k, (chainDupdate .nil ds).dlookup k = lastIn ds k)
    ∧ (∀ (fs : FS) (config_path : String) (ps : List String) (ds : List YDict)
        (config : YDict),
        List.Forall₂
          (fun p d => get_default_args_from_path fs config_path p = .ok (.dict d)) ps ds →
        (∃ lv', (ps.map YVal.str).foldlM (processDefaultItem fs config_path) (config, none)
            = .ok (chainUpdate config ds, lv'))
          ∧ ∀ k, (chainUpdate config ds).dlookup k
              = ofirst (config.dlookup k) (firstIn ds k)) := by
  refine ⟨fun fs config_path dpd paths cs h₁ h₂ => ?_,
    fun ds hd => ⟨mergeFragments_dicts ds .nil, fun k => ?_⟩,
    fun fs config_path ps ds config hfa =>
      ⟨foldDefaults_str_eq_chainUpdate fs config_path ps ds config none hfa,
       fun k => chainUpdate_lookup ds config k⟩⟩
  · unfold get_default_args_from_dict
    rw [h₁]
    simp only [except_bind_ok]
    rw [h₂]
    rfl
  · rw [chainDupdate_lookup ds .nil k hd]
    simp [YDict.dlookup]

/-- The two fragments of `fsC2` referenced directly as sequence items. -/
def fsC2seq : FS := fun p =>
  if p = "cfg/f1.yaml" then some (.dict (.ofList [("k", .str "v1")]))
  else if p = "cfg/f2.yaml" then some (.dict (.ofList [("k", .str "v2")]))
  else none

/-- Witness for the amended C2 at concrete fragments `{k: v1}` (earlier)
and `{k: v2}` (later): the mapping form merges to `v2`, the sequence form
merges to `v1`. -/
theorem defaults_fragment_merge_order_witness :
    mergeFragments [.dict (.ofList [("k", .str "v1")]), .dict (.ofList [("k", .str "v2")])]
      = .ok (chainDupdate .nil [.ofList [("k", .str "v1")], .ofList [("k", .str "v2")]])
    ∧ (chainDupdate .nil [.ofList [("k", .str "v1")], .ofList [("k", .str "v2")]]).dlookup "k"
      = lastIn [.ofList [("k", .str "v1")], .ofList [("k", .str "v2")]] "k"
    ∧ lastIn [.ofList [("k", .str "v1")], .ofList [("k", .str "v2")]] "k"
      = some (.str "v2")
    ∧ (∃ lv', ((["f1", "f2"].map YVal.str)).foldlM
          (processDefaultItem fsC2seq "cfg") (.nil, none)
        = .ok (chainUpdate .nil
            [.ofList [("k", .str "v1")], .ofList [("k", .str "v2")]], lv'))
    ∧ (chainUpdate .nil
          [.ofList [("k", .str "v1")], .ofList [("k", .str "v2")]]).dlookup "k"
      = some (.str "v1") := by
  have hB := defaults_fragment_merge_order.2.1
    [.ofList [("k", .str "v1")], .ofList [("k", .str "v2")]]
    (by intro d hd; fin_cases hd <;> rfl)
  have hC := defaults_fragment_merge_order.2.2 fsC2seq "cfg" ["f1", "f2"]
    [.ofList [("k", .str "v1")], .ofList [("k", .str "v2")]] .nil
    (List.Forall₂.cons rfl (List.Forall₂.cons rfl List.Forall₂.nil))
  exact ⟨hB.1, hB.2 "k", rfl, hC.1, by rw [hC.2 "k"]; rfl⟩

/- ### Claim C6: split / join and dict lemmas -/

theorem string_data_append (a b : String) : (a ++ b).data = a.data ++ b.data := by
  cases a
  cases b
  rfl

theorem splitDotChars_ne_nil (cs : List Char) : splitDotChars cs ≠ [] := by
  induction cs with
  | nil => simp [splitDotChars]
  | cons c tl ih =>
      rw [splitDotChars]
      by_cases hc : c = '.'
      · rw [if_pos hc]
        simp
      · rw [if_neg hc]
        cases h : splitDotChars tl with
        | nil => simp
        | cons g gs => simp

theorem splitDotChars_no_dot (cs : List Char) (h : '.' ∉ cs) :
    splitDotChars cs = [cs] := by
  induction cs with
  | nil => rfl
  | cons c tl ih =>
      rw [splitDotChars]
      have hc : ¬ c = '.' := fun hh => h (hh ▸ List.mem_cons_self _ _)
      rw [if_neg hc, ih (fun hm => h (List.mem_cons_of_mem _ hm))]

theorem splitDotChars_append (a b : List Char) (h : '.' ∉ a) :
    splitDotChars (a ++ '.' :: b) = a :: splitDotChars b := by
  induction a with
  | nil => simp [splitDotChars]
  | cons c tl ih =>
      have hc : ¬ c = '.' := fun hh => h (hh ▸ List.mem_cons_self _ _)
      rw [List.cons_append, splitDotChars, if_neg hc,
        ih (fun hm => h (List.mem_cons_of_mem _ hm))]

theorem no_dot_of_all_ne (s : String) (h : s.data.all (fun c => c != '.') = true) :
    '.' ∉ s.data := by
  intro hm
  have := List.all_eq_true.mp h '.' hm
  simp at this

theorem splitOnDot_joinDots (segs : List String) (hne : segs ≠ [])
    (hdf : ∀ s ∈ segs, '.' ∉ s.data) : splitOnDot (joinDots segs) = segs := by
  induction segs with
  | nil => exact absurd rfl hne
  | cons s rest ih =>
      cases rest with
      | nil =>
          unfold splitOnDot
          rw [joinDots, splitDotChars_no_dot s.data (hdf s (List.mem_cons_self _ _))]
          simp [string_mk_data]
      | cons s₂ rest₂ =>
          unfold splitOnDot
          rw [show joinDots (s :: s₂ :: rest₂) = s ++ "." ++ joinDots (s₂ :: rest₂) from rfl]
          rw [string_data_append, string_data_append]
          rw [show ("." : String).data = ['.'] from rfl]
          rw [List.append_assoc, List.singleton_append,
            splitDotChars_append _ _ (hdf s (List.mem_cons_self _ _))]
          rw [List.map_cons, string_mk_data]
          have := ih (by simp) (fun t ht => hdf t (List.mem_cons_of_mem _ ht))
          unfold splitOnDot at this
          rw [this]

theorem dappend_nil (d : YDict) : d.dappend .nil = d := by
  induction d with
  | nil => rfl
  | cons k v rest ih => rw [YDict.dappend, ih]

theorem dinsert_absent (d : YDict) (k : String) (v : YVal)
    (h : d.dlookup k = none) : d.dinsert k v = d.dappend (.cons k v .nil) := by
  induction d with
  | nil => rfl
  | cons k₀ v₀ rest ih =>
      rw [YDict.dlookup] at h
      by_cases hk : k₀ = k
      · rw [if_pos hk] at h
        cases h
      · rw [if_neg hk] at h
        rw [YDict.dinsert, if_neg hk, YDict.dappend, ih h]

theorem dinsert_dinsert (d : YDict) (k : String) (v w : YVal) :
    (d.dinsert k v).dinsert k w = d.dinsert k w := by
  induction d with
  | nil => simp [YDict.dinsert]
  | cons k₀ v₀ rest ih =>
      by_cases hk : k₀ = k
      · simp [YDict.dinsert, hk]
      · simp [YDict.dinsert, hk, ih]

theorem dinsert_self (d : YDict) (k : String) (v : YVal)
    (h : d.dlookup k = some v) : d.dinsert k v = d := by
  induction d with
  | nil => cases h
  | cons k₀ v₀ rest ih =>
      rw [YDict.dlookup] at h
      by_cases hk : k₀ = k
      · rw [if_pos hk] at h
        cases h
        rw [YDict.dinsert, if_pos hk]
      · rw [if_neg hk] at h
        rw [YDict.dinsert, if_neg hk, ih h]

theorem dappend_cons_assoc (d : YDict) (k : String) (v : YVal) (rest : YDict) :
    (d.dappend (.cons k v .nil)).dappend rest = d.dappend (.cons k v rest) := by
  induction d with
  | nil => rfl
  | cons k₀ v₀ tl ih => rw [YDict.dappend, YDict.dappend, ih, YDict.dappend]

/- ### Claim C6: sizes and the insertion fold -/

mutual

/-- Size of a value, for induction. -/
def vsize : YVal → Nat
  | .dict d => dsize d + 1
  | .list l => lsize l + 1
  | _ => 0

/-- Size of a sequence, for induction. -/
def lsize : YList → Nat
  | .nil => 0
  | .cons v rest => vsize v + lsize rest + 1

/-- Size of a dict, for induction. -/
def dsize : YDict → Nat
  | .nil => 0
  | .cons _ v rest => vsize v + dsize rest + 1

end

/-- The loop of `config_to_nested_config` with the keys already split into
segment lists. -/
def foldInsert (acc : YDict) (L : List (List String × YVal)) : Except String YDict :=
  L.foldlM (fun d p => insertPath d p.1 p.2) acc

theorem foldInsert_nil (acc : YDict) : foldInsert acc [] = .ok acc := rfl

theorem foldInsert_cons (acc : YDict) (p : List String × YVal)
    (L : List (List String × YVal)) :
    foldInsert acc (p :: L)
      = Bind.bind (insertPath acc p.1 p.2) (fun d => foldInsert d L) := rfl

theorem foldInsert_append (acc : YDict) (A B : List (List String × YVal)) :
    foldInsert acc (A ++ B)
      = Bind.bind (foldInsert acc A) (fun d => foldInsert d B) := by
  unfold foldInsert
  rw [List.foldlM_append]

theorem insertPath_single (d : YDict) (k : String) (v : YVal) :
    insertPath d [k] v = .ok (d.dinsert k v) := rfl

theorem insertPath_cons_none (d : YDict) (k r : String) (rs : List String) (v : YVal)
    (h : d.dlookup k = none) :
    insertPath d (k :: r :: rs) v
      = Bind.bind (insertPath .nil (r :: rs) v)
          (fun sub => .ok (d.dinsert k (.dict sub))) := by
  rw [show insertPath d (k :: r :: rs) v
      = (match d.dlookup k with
         | none => Bind.bind (insertPath .nil (r :: rs) v)
             (fun sub => .ok (d.dinsert k (.dict sub)))
         | some (.dict sub) => Bind.bind (insertPath sub (r :: rs) v)
             (fun sub' => .ok (d.dinsert k (.dict sub')))
         | some _ => .error "TypeError: intermediate value is not a dict")
    from rfl, h]

theorem insertPath_cons_dict (d : YDict) (k r : String) (rs : List String)
    (v : YVal) (sub : YDict) (h : d.dlookup k = some (.dict sub)) :
    insertPath d (k :: r :: rs) v
      = Bind.bind (insertPath sub (r :: rs) v)
          (fun sub' => .ok (d.dinsert k (.dict sub'))) := by
  rw [show insertPath d (k :: r :: rs) v
      = (match d.dlookup k with
         | none => Bind.bind (insertPath .nil (r :: rs) v)
             (fun sub0 => .ok (d.dinsert k (.dict sub0)))
         | some (.dict sub0) => Bind.bind (insertPath sub0 (r :: rs) v)
             (fun sub' => .ok (d.dinsert k (.dict sub')))
         | some _ => .error "TypeError: intermediate value is not a dict")
    from rfl, h]

/-- Processing a group of paths that all start with the same key `k`,
when `k` is already bound to a nested dict: the whole group is routed
into that nested dict. -/
theorem foldInsert_group (k : String) :
    ∀ (L : List (List String × YVal)) (sub acc : YDict),
    (∀ p ∈ L, p.1 ≠ []) →
    acc.dlookup k = some (.dict sub) →
    foldInsert acc (L.map (fun p => (k :: p.1, p.2)))
      = Bind.bind (foldInsert sub L) (fun s => .ok (acc.dinsert k (.dict s))) := by
  intro L
  induction L with
  | nil =>
      intro sub acc _ hlk
      rw [List.map_nil, foldInsert_nil, foldInsert_nil, except_bind_ok,
        dinsert_self _ _ _ hlk]
  | cons p L' ih =>
      intro sub acc hne hlk
      obtain ⟨p1, p2⟩ := p
      cases p1 with
      | nil => exact absurd rfl (hne ([], p2) (List.mem_cons_self _ _))
      | cons r rs =>
          show Bind.bind (insertPath acc (k :: r :: rs) p2)
                (fun d => foldInsert d (L'.map (fun q => (k :: q.1, q.2))))
              = Bind.bind (Bind.bind (insertPath sub (r :: rs) p2)
                  (fun d => foldInsert d L'))
                (fun s => Except.ok (acc.dinsert k (YVal.dict s)))
          rw [insertPath_cons_dict _ _ _ _ _ _ hlk]
          cases hins : insertPath sub (r :: rs) p2 with
          | error e => rfl
          | ok sub' =>
              simp only [except_bind_ok]
              rw [ih sub' (acc.dinsert k (.dict sub'))
                (fun q hq => hne q (List.mem_cons_of_mem _ hq))
                (by rw [dlookup_dinsert, if_pos rfl])]
              cases hrest : foldInsert sub' L' with
              | error e => rfl
              | ok s =>
                  simp only [except_bind_ok]
                  rw [dinsert_dinsert]

/-- All paths emitted by `flattenPaths` on a well-formed dict are
non-empty and made of dot-free segments, and a well-formed non-empty dict
emits at least one path. -/
theorem flattenPaths_wf :
    ∀ (n : Nat) (M : YDict), dsize M ≤ n → wfDict M = true →
    (∀ p ∈ flattenPaths M, p.1 ≠ [] ∧ ∀ s ∈ p.1, '.' ∉ s.data)
      ∧ (M ≠ .nil → flattenPaths M ≠ []) := by
  intro n
  induction n with
  | zero =>
      intro M hs _
      cases M with
      | nil =>
          refine ⟨fun p hp => ?_, fun hne => absurd rfl hne⟩
          rw [show flattenPaths .nil = [] from rfl] at hp
          cases hp
      | cons k v rest =>
          rw [dsize] at hs
          omega
  | succ n ih =>
      intro M hs hwf
      cases M with
      | nil =>
          refine ⟨fun p hp => ?_, fun hne => absurd rfl hne⟩
          rw [show flattenPaths .nil = [] from rfl] at hp
          cases hp
      | cons k v rest =>
          rw [dsize] at hs
          rw [wfDict] at hwf
          simp only [Bool.and_eq_true] at hwf
          obtain ⟨⟨⟨hkc, hkd⟩, hv⟩, hrest⟩ := hwf
          have hkdot : '.' ∉ k.data := no_dot_of_all_ne k hkd
          have ihrest := ih rest (by omega) hrest
          rw [show flattenPaths (.cons k v rest) = flattenEntry k v ++ flattenPaths rest
            from rfl]
          cases v with
          | dict sub =>
              rw [wfValue] at hv
              simp only [Bool.and_eq_true] at hv
              obtain ⟨hsubne, hsubwf⟩ := hv
              have ihsub := ih sub (by rw [vsize] at hs; omega) hsubwf
              have hsubnil : sub ≠ .nil := by
                intro hh
                subst hh
                rw [show YDict.disNil .nil = true from rfl] at hsubne
                simp at hsubne
              constructor
              · intro p hp
                rcases List.mem_append.mp hp with hp | hp
                · rw [show flattenEntry k (.dict sub)
                      = (flattenPaths sub).map (fun q => (k :: q.1, q.2)) from rfl] at hp
                  rcases List.mem_map.mp hp with ⟨q, hq, hqe⟩
                  obtain ⟨hq1, hq2⟩ := ihsub.1 q hq
                  subst hqe
                  refine ⟨by simp, fun s hsmem => ?_⟩
                  rcases List.mem_cons.mp hsmem with hsk | hsm
                  · subst hsk
                    exact hkdot
                  · exact hq2 s hsm
                · exact ihrest.1 p hp
              · intro _
                have : flattenPaths sub ≠ [] := ihsub.2 hsubnil
                cases hfp : flattenPaths sub with
                | nil => exact absurd hfp this
                | cons q qs =>
                    rw [show flattenEntry k (.dict sub)
                      = (flattenPaths sub).map (fun q => (k :: q.1, q.2)) from rfl, hfp]
                    simp
          | str s =>
              refine ⟨fun p hp => ?_, fun _ => by
                rw [show flattenEntry k (.str s) = [([k], .str s)] from rfl]
                simp⟩
              rcases List.mem_append.mp hp with hp | hp
              · rw [show flattenEntry k (.str s) = [([k], .str s)] from rfl] at hp
                rcases List.mem_singleton.mp hp with rfl
                exact ⟨by simp, fun t ht => by
                  rcases List.mem_singleton.mp ht with rfl
                  exact hkdot⟩
              · exact ihrest.1 p hp
          | int m =>
              refine ⟨fun p hp => ?_, fun _ => by
                rw [show flattenEntry k (.int m) = [([k], .int m)] from rfl]
                simp⟩
              rcases List.mem_append.mp hp with hp | hp
              · rw [show flattenEntry k (.int m) = [([k], .int m)] from rfl] at hp
                rcases List.mem_singleton.mp hp with rfl
                exact ⟨by simp, fun t ht => by
                  rcases List.mem_singleton.mp ht with rfl
                  exact hkdot⟩
              · exact ihrest.1 p hp
          | bool b =>
              refine ⟨fun p hp => ?_, fun _ => by
                rw [show flattenEntry k (.bool b) = [([k], .bool b)] from rfl]
                simp⟩
              rcases List.mem_append.mp hp with hp | hp
              · rw [show flattenEntry k (.bool b) = [([k], .bool b)] from rfl] at hp
                rcases List.mem_singleton.mp hp with rfl
                exact ⟨by simp, fun t ht => by
                  rcases List.mem_singleton.mp ht with rfl
                  exact hkdot⟩
              · exact ihrest.1 p hp
          | null =>
              refine ⟨fun p hp => ?_, fun _ => by
                rw [show flattenEntry k .null = [([k], .null)] from rfl]
                simp⟩
              rcases List.mem_append.mp hp with hp | hp
              · rw [show flattenEntry k .null = [([k], .null)] from rfl] at hp
                rcases List.mem_singleton.mp hp with rfl
                exact ⟨by simp, fun t ht => by
                  rcases List.mem_singleton.mp ht with rfl
                  exact hkdot⟩
              · exact ihrest.1 p hp
          | list l =>
              refine ⟨fun p hp => ?_, fun _ => by
                rw [show flattenEntry k (.list l) = [([k], .list l)] from rfl]
                simp⟩
              rcases List.mem_append.mp hp with hp | hp
              · rw [show flattenEntry k (.list l) = [([k], .list l)] from rfl] at hp
                rcases List.mem_singleton.mp hp with rfl
                exact ⟨by simp, fun t ht => by
                  rcases List.mem_singleton.mp ht with rfl
                  exact hkdot⟩
              · exact ihrest.1 p hp

/- ### Claim C6: round trip -/

theorem not_mem_of_contains_false (l : List String) (a : String)
    (h : l.contains a = false) : a ∉ l := by
  simpa using h

theorem dlookup_dappend (a b : YDict) (k : String) :
    (a.dappend b).dlookup k = ofirst (a.dlookup k) (b.dlookup k) := by
  induction a with
  | nil => rfl
  | cons k₀ v₀ rest ih =>
      by_cases hk : k₀ = k
      · simp [YDict.dappend, YDict.dlookup, hk]
      · simp [YDict.dappend, YDict.dlookup, hk, ih]

theorem ctncGo_ofList :
    ∀ (L : List (String × YVal)) (nested : YDict),
    ctncGo (YDict.ofList L) nested
      = foldInsert nested (L.map (fun q => (splitOnDot q.1, q.2))) := by
  intro L
  induction L with
  | nil => intro nested; rfl
  | cons q L' ih =>
      intro nested
      obtain ⟨s, v⟩ := q
      show Bind.bind (insertPath nested (splitOnDot s) v)
            (fun n' => ctncGo (YDict.ofList L') n')
          = Bind.bind (insertPath nested (splitOnDot s) v)
            (fun d => foldInsert d (L'.map (fun q => (splitOnDot q.1, q.2))))
      cases hins : insertPath nested (splitOnDot s) v with
      | error e => rfl
      | ok n' =>
          simp only [except_bind_ok]
          exact ih n'

/-- Main lemma: inserting a well-formed dict's flattened paths into an
accumulator whose keys are disjoint from its top-level keys appends the
dict to the accumulator, exactly. -/
theorem foldInsert_flattenPaths :
    ∀ (n : Nat) (M : YDict), dsize M ≤ n → wfDict M = true →
    ∀ (acc : YDict), (∀ k ∈ YDict.dkeys M, acc.dlookup k = none) →
    foldInsert acc (flattenPaths M) = .ok (acc.dappend M) := by
  intro n
  induction n with
  | zero =>
      intro M hs _ acc _
      cases M with
      | nil => rw [show flattenPaths .nil = [] from rfl, foldInsert_nil, dappend_nil]
      | cons k v rest => rw [dsize] at hs; omega
  | succ n ih =>
      intro M hs hwf acc hdisj
      cases M with
      | nil => rw [show flattenPaths .nil = [] from rfl, foldInsert_nil, dappend_nil]
      | cons k v rest =>
          rw [dsize] at hs
          rw [wfDict] at hwf
          simp only [Bool.and_eq_true] at hwf
          obtain ⟨⟨⟨hkc, _⟩, hv⟩, hrestwf⟩ := hwf
          have hacck : acc.dlookup k = none :=
            hdisj k (by rw [YDict.dkeys]; exact List.mem_cons_self _ _)
          have hknotin : k ∉ YDict.dkeys rest :=
            not_mem_of_contains_false _ _ (by simpa using hkc)
          have hdisj' : ∀ k' ∈ YDict.dkeys rest, (acc.dinsert k v).dlookup k' = none := by
            intro k' hk'
            rw [dlookup_dinsert]
            have hne : ¬ k = k' := fun hh => hknotin (hh ▸ hk')
            rw [if_neg hne]
            exact hdisj k' (by rw [YDict.dkeys]; exact List.mem_cons_of_mem _ hk')
          have hgroup : foldInsert acc (flattenEntry k v) = .ok (acc.dinsert k v) := by
            cases v with
            | str s => rfl
            | int m => rfl
            | bool b => rfl
            | null => rfl
            | list l => rfl
            | dict sub =>
                rw [wfValue] at hv
                simp only [Bool.and_eq_true] at hv
                obtain ⟨hsubne, hsubwf⟩ := hv
                have hsubnil : sub ≠ .nil := by
                  intro hh
                  subst hh
                  simp [YDict.disNil] at hsubne
                have hwfsub := flattenPaths_wf (dsize sub) sub le_rfl hsubwf
                have ihsub : foldInsert .nil (flattenPaths sub) = .ok sub := by
                  have := ih sub (by rw [vsize] at hs; omega) hsubwf .nil
                    (fun k' _ => rfl)
                  rw [this]
                  rfl
                cases hfp : flattenPaths sub with
                | nil => exact absurd hfp (hwfsub.2 hsubnil)
                | cons q qs =>
                    obtain ⟨q1, q2⟩ := q
                    rw [hfp] at ihsub
                    rw [foldInsert_cons] at ihsub
                    cases hq1 : insertPath .nil q1 q2 with
                    | error e =>
                        rw [show ((q1, q2) : List String × YVal).1 = q1 from rfl,
                          show ((q1, q2) : List String × YVal).2 = q2 from rfl, hq1]
                          at ihsub
                        simp at ihsub
                    | ok s₁ =>
                        rw [show ((q1, q2) : List String × YVal).1 = q1 from rfl,
                          show ((q1, q2) : List String × YVal).2 = q2 from rfl, hq1]
                          at ihsub
                        simp only [except_bind_ok] at ihsub
                        have hq1ne : q1 ≠ [] :=
                          (hwfsub.1 (q1, q2) (hfp ▸ List.mem_cons_self _ _)).1
                        cases hq1c : q1 with
                        | nil => exact absurd hq1c hq1ne
                        | cons r rs =>
                            subst hq1c
                            rw [show flattenEntry k (.dict sub)
                              = (flattenPaths sub).map (fun p => (k :: p.1, p.2))
                              from rfl, hfp]
                            show Bind.bind (insertPath acc (k :: r :: rs) q2)
                                (fun d => foldInsert d
                                  (qs.map (fun p => (k :: p.1, p.2))))
                              = Except.ok (acc.dinsert k (YVal.dict sub))
                            rw [insertPath_cons_none _ _ _ _ _ hacck, hq1]
                            simp only [except_bind_ok]
                            rw [foldInsert_group k qs s₁ (acc.dinsert k (.dict s₁))
                              (fun p hp => (hwfsub.1 p
                                (hfp ▸ List.mem_cons_of_mem _ hp)).1)
                              (by rw [dlookup_dinsert, if_pos rfl]), ihsub]
                            simp only [except_bind_ok]
                            rw [dinsert_dinsert]
          rw [show flattenPaths (.cons k v rest)
            = flattenEntry k v ++ flattenPaths rest from rfl]
          rw [foldInsert_append, hgroup]
          simp only [except_bind_ok]
          rw [ih rest (by omega) hrestwf (acc.dinsert k v) hdisj']
          rw [dinsert_absent _ _ _ hacck, dappend_cons_assoc]

/-- C6 (amended): Round-trip law — for every nested mapping `M` whose keys
are unique at each level and contain no `'.'`, and whose nested
sub-mappings are all non-empty, rebuilding the dotted-key flattening of
`M` with `config_to_nested_config` reproduces `M` exactly (every key
preserved, none duplicated, and dotted keys sharing a prefix but
diverging later end up as distinct entries under the same parent). -/
theorem config_to_nested_config_roundtrip (M : YDict) (hwf : wfDict M = true) :
    config_to_nested_config (flatten M) = .ok M := by
  unfold config_to_nested_config flatten
  rw [ctncGo_ofList, List.map_map]
  have hwfp := flattenPaths_wf (dsize M) M le_rfl hwf
  have hmap : ∀ (L : List (List String × YVal)),
      (∀ p ∈ L, p.1 ≠ [] ∧ ∀ s ∈ p.1, '.' ∉ s.data) →
      L.map (fun p => (splitOnDot (joinDots p.1), p.2)) = L := by
    intro L hL
    induction L with
    | nil => rfl
    | cons p L' ihL =>
        obtain ⟨p1, p2⟩ := p
        show ((splitOnDot (joinDots p1), p2) : List String × YVal)
            :: L'.map (fun p => (splitOnDot (joinDots p.1), p.2))
          = ((p1, p2) : List String × YVal) :: L'
        obtain ⟨hne, hdf⟩ := hL (p1, p2) (List.mem_cons_self _ _)
        rw [splitOnDot_joinDots p1 hne hdf,
          ihL (fun q hq => hL q (List.mem_cons_of_mem _ hq))]
  rw [show ((fun q => (splitOnDot (q : String × YVal).1, q.2))
        ∘ (fun p => (joinDots (p : List String × YVal).1, p.2)))
      = (fun p => (splitOnDot (joinDots (p : List String × YVal).1), p.2)) from rfl]
  rw [hmap (flattenPaths M) hwfp.1]
  have := foldInsert_flattenPaths (dsize M) M le_rfl hwf .nil (fun k _ => rfl)
  rw [this]
  rfl

/-- C6 counterexample: the nested mapping `{a: {}}` has dot-free keys, but
its flattening is empty, so the rebuilt Config is `{}`, losing the key
`a`. -/
theorem roundtrip_empty_submapping_fails :
    config_to_nested_config (flatten (.cons "a" (.dict .nil) .nil)) = .ok .nil
      ∧ YDict.nil ≠ YDict.cons "a" (.dict .nil) .nil :=
  ⟨rfl, fun h => by cases h⟩

/-- Witness for the amended C6 at the mapping
`{a: {b: 1, c: 2}, d: 3}` — the prefix-sharing dotted keys `a.b` and
`a.c` both survive under the single parent `a`. -/
theorem config_to_nested_config_roundtrip_witness :
    wfDict (.ofList [("a", .dict (.ofList [("b", .int 1), ("c", .int 2)])), ("d", .int 3)])
      = true
    ∧ config_to_nested_config (flatten
        (.ofList [("a", .dict (.ofList [("b", .int 1), ("c", .int 2)])), ("d", .int 3)]))
      = .ok (.ofList [("a", .dict (.ofList [("b", .int 1), ("c", .int 2)])), ("d", .int 3)]) :=
  ⟨rfl, config_to_nested_config_roundtrip
    (.ofList [("a", .dict (.ofList [("b", .int 1), ("c", .int 2)])), ("d", .int 3)]) rfl⟩

end Skeletonkey
